import Mathlib

/-!
Verification of the AutoML discovery/training orchestration core.

The definitions below are a shallow embedding of the Python sources:
- `src/backend/src/services/firecrawl.py` (`normalize_url`, scrape result shape)
- `src/backend/src/jobs/discovery.py` (`discovery_crawl` dedup, `score_relevance_batch`,
  `select_best_source`, `run_discovery_pipeline`)
- `src/backend/src/training/trainer.py` (`Trainer.train`)
- `src/backend/src/dataset/discovery.py` (`_get_fallbacks`, `discover_all`)

External collaborators (LLM scoring, Firecrawl scrape, Modal jobs, the Kaggle
CLI, `urllib.parse.urlparse`) are modelled as explicit function parameters
(oracles); MongoDB documents are modelled as explicit record state threaded
through the functions.  Machine time is a `Nat` instant.
-/

deriving instance DecidableEq for Except

namespace AutoML

/-! ## Python string primitives

The Python sources use `str.lower`, `str.rstrip("/")`, `str.replace`,
`str.endswith`, slicing and the `in` substring test.  They are modelled here
by structural recursion over the character list of a `String`, so that every
definition evaluates by kernel reduction. -/

/-- Python `str.lower()` (ASCII, which is all the code compares). -/
def pyLower (s : String) : String := ⟨s.data.map Char.toLower⟩

/-- Python `str.rstrip("/")`: drop every trailing `'/'`. -/
def pyRstripSlash (s : String) : String :=
  ⟨(s.data.reverse.dropWhile (fun c => c == '/')).reverse⟩

/-- One left-to-right pass of Python `str.replace`, fuelled by the input
length (each step consumes at least one character). -/
def pyReplaceAux (pat rep : List Char) : Nat → List Char → List Char
  | _, [] => []
  | 0, l => l
  | Nat.succ f, c :: rest =>
      if pat.isPrefixOf (c :: rest) then
        rep ++ pyReplaceAux pat rep f (List.drop pat.length (c :: rest))
      else c :: pyReplaceAux pat rep f rest

/-- Python `s.replace(pat, rep)` (all non-overlapping occurrences, leftmost
first; the code never calls it with an empty pattern). -/
def pyReplace (s pat rep : String) : String :=
  ⟨pyReplaceAux pat.data rep.data s.data.length s.data⟩

/-- Python `s.endswith(pat)`. -/
def pyEndsWith (s pat : String) : Bool := pat.data.isSuffixOf s.data

/-- Python `s[:n]` slicing. -/
def pyTake (s : String) (n : Nat) : String := ⟨s.data.take n⟩

/-- Contiguous-sublist test on character lists (Python's `in` on strings). -/
def listIsInfix (pat : List Char) : List Char → Bool
  | [] => pat.isEmpty
  | c :: rest => pat.isPrefixOf (c :: rest) || listIsInfix pat rest

/-- Substring test, mirroring Python's `pat in s` operator on strings. -/
def containsSubstr (s pat : String) : Bool :=
  listIsInfix pat.data s.data

/-! ## URL normalization — `FirecrawlService.normalize_url` (firecrawl.py 157-164)

`urlparse` is Python stdlib, modelled as an oracle `parse` returning the
`scheme`/`netloc`/`path` components (or `none` when it raises). -/

structure UrlParts where
  scheme : String
  netloc : String
  path : String
deriving Repr, DecidableEq

/-- `normalize_url` from firecrawl.py:
`f"{scheme}://{netloc}{path}".lower().rstrip("/").replace("://www.", "://")`,
falling back to `url.lower().rstrip("/")` when `urlparse` raises. -/
def normalize_url (parse : String → Option UrlParts) (url : String) : String :=
  match parse url with
  | some p =>
      pyReplace (pyRstripSlash (pyLower (p.scheme ++ "://" ++ p.netloc ++ p.path)))
        "://www." "://"
  | none => pyRstripSlash (pyLower url)

/-! ## Candidate documents (db/schemas.py `Source`) -/

/-- A source document as stored in the project's `sources` array
(schemas.py `Source`; only the fields the pipeline reads or writes). -/
structure SourceDoc where
  url : String
  status : String := "pending_validation"
  relevance_score : Option Int := none
  source_type : Option String := none
  features_found : List String := []
  quality_rating : Option Int := none
  credibility_tier : Option String := none
  raw_sample : Option String := none
  last_crawled : Option Nat := none
deriving Repr, DecidableEq

/-! ## Provider fan-out merge — `discovery_crawl` (discovery.py 151-156)

```
for source in list(firecrawl_results) + list(kaggle_results):
    normalized_url = firecrawl_service.normalize_url(source.url)
    if normalized_url not in seen_urls:
        seen_urls.add(normalized_url)
        all_sources.append(source)
```
-/

/-- The dedup loop of `discovery_crawl`, with the `seen_urls` set as a list
(membership is the set test). -/
def mergeDedup (norm : String → String) : List SourceDoc → List String → List SourceDoc
  | [], _ => []
  | s :: rest, seen =>
      let n := norm s.url
      if n ∈ seen then mergeDedup norm rest seen
      else s :: mergeDedup norm rest (n :: seen)

theorem mergeDedup_sublist (norm : String → String) :
    ∀ (l : List SourceDoc) (seen : List String), (mergeDedup norm l seen).Sublist l := by
  intro l
  induction l with
  | nil => intro seen; simp [mergeDedup]
  | cons s rest ih =>
      intro seen
      by_cases h : norm s.url ∈ seen
      · simpa [mergeDedup, h] using (ih seen).cons s
      · simpa [mergeDedup, h] using (ih (norm s.url :: seen)).cons₂ s

theorem mergeDedup_nodup_aux (norm : String → String) :
    ∀ (l : List SourceDoc) (seen : List String),
      ((mergeDedup norm l seen).map (fun s => norm s.url)).Nodup
      ∧ ∀ s ∈ mergeDedup norm l seen, norm s.url ∉ seen := by
  intro l
  induction l with
  | nil => intro seen; simp [mergeDedup]
  | cons s rest ih =>
      intro seen
      by_cases h : norm s.url ∈ seen
      · simpa [mergeDedup, h] using ih seen
      · obtain ⟨ih1, ih2⟩ := ih (norm s.url :: seen)
        constructor
        · simp only [mergeDedup, h, if_false, List.map_cons, List.nodup_cons]
          refine ⟨?_, ih1⟩
          intro hmem
          rcases List.mem_map.mp hmem with ⟨t, ht, hte⟩
          exact ih2 t ht (by rw [hte]; exact List.mem_cons_self _ _)
        · intro t ht
          simp only [mergeDedup, h, if_false, List.mem_cons] at ht
          rcases ht with rfl | ht
          · exact h
          · intro hc
            exact ih2 t ht (List.mem_cons_of_mem _ hc)

theorem mergeDedup_first_mem (norm : String → String) :
    ∀ (l : List SourceDoc) (seen : List String) (i : Nat) (h : i < l.length),
      norm (l.get ⟨i, h⟩).url ∉ seen →
      (∀ j (hj : j < i), norm (l.get ⟨j, Nat.lt_trans hj h⟩).url ≠ norm (l.get ⟨i, h⟩).url) →
      l.get ⟨i, h⟩ ∈ mergeDedup norm l seen := by
  intro l
  induction l with
  | nil => intro seen i h; exact absurd h (by simp)
  | cons s rest ih =>
      intro seen i h hseen hfirst
      match i with
      | 0 =>
          have hns : norm s.url ∉ seen := hseen
          simp [mergeDedup, hns]
      | Nat.succ k =>
          have hk : k < rest.length := Nat.lt_of_succ_lt_succ h
          by_cases hc : norm s.url ∈ seen
          · simp only [mergeDedup, hc, if_true]
            refine ih seen k hk ?_ ?_
            · exact hseen
            · intro j hj
              exact hfirst (j + 1) (Nat.succ_lt_succ hj)
          · simp only [mergeDedup, hc, if_false]
            refine List.mem_cons_of_mem _ (ih (norm s.url :: seen) k hk ?_ ?_)
            · intro hmem
              rcases List.mem_cons.mp hmem with heq | hmem'
              · exact hfirst 0 (Nat.succ_pos k) heq.symm
              · exact hseen hmem'
            · intro j hj
              exact hfirst (j + 1) (Nat.succ_lt_succ hj)

theorem mergeDedup_covers (norm : String → String) :
    ∀ (l : List SourceDoc) (seen : List String) (s : SourceDoc),
      s ∈ l → norm s.url ∉ seen →
      ∃ t ∈ mergeDedup norm l seen, norm t.url = norm s.url := by
  intro l
  induction l with
  | nil => intro seen s hs; exact absurd hs (by simp)
  | cons hd rest ih =>
      intro seen s hs hseen
      by_cases hc : norm hd.url ∈ seen
      · simp only [mergeDedup, hc, if_true]
        rcases List.mem_cons.mp hs with rfl | hs'
        · exact absurd hc hseen
        · exact ih seen s hs' hseen
      · simp only [mergeDedup, hc, if_false]
        rcases List.mem_cons.mp hs with rfl | hs'
        · exact ⟨_, List.mem_cons_self _ _, rfl⟩
        · by_cases heq : norm s.url = norm hd.url
          · exact ⟨hd, List.mem_cons_self _ _, heq.symm⟩
          · obtain ⟨t, ht, hte⟩ :=
              ih (norm hd.url :: seen) s hs'
                (by
                  intro hmem
                  rcases List.mem_cons.mp hmem with h1 | h2
                  · exact heq h1
                  · exact hseen h2)
            exact ⟨t, List.mem_cons_of_mem _ ht, hte⟩

/-- **C2.** In the provider fan-out merge of `discovery_crawl`, writing
`merged` for the dedup of the concatenated provider outputs under
`normalize_url`: (i) `merged` is a sublist of the concatenation (stable
first-provider-wins merge order); (ii) `merged` has at most one candidate per
normalized identity; (iii) every candidate whose normalized identity does not
occur earlier in the concatenation (a first-seen candidate) survives into
`merged`; (iv) every raw candidate's identity is represented in `merged`.
Hence for any two raw candidates normalizing to the same identity, only the
first-seen one survives. -/
theorem dedup_first_seen_wins (parse : String → Option UrlParts)
    (firecrawl_results kaggle_results : List SourceDoc) :
    (mergeDedup (normalize_url parse) (firecrawl_results ++ kaggle_results) []).Sublist
        (firecrawl_results ++ kaggle_results)
    ∧ ((mergeDedup (normalize_url parse) (firecrawl_results ++ kaggle_results) []).map
        (fun s => normalize_url parse s.url)).Nodup
    ∧ (∀ i (h : i < (firecrawl_results ++ kaggle_results).length),
        (∀ j (hj : j < i),
          normalize_url parse ((firecrawl_results ++ kaggle_results).get ⟨j, Nat.lt_trans hj h⟩).url ≠
          normalize_url parse ((firecrawl_results ++ kaggle_results).get ⟨i, h⟩).url) →
        (firecrawl_results ++ kaggle_results).get ⟨i, h⟩ ∈
          mergeDedup (normalize_url parse) (firecrawl_results ++ kaggle_results) [])
    ∧ (∀ s ∈ firecrawl_results ++ kaggle_results,
        ∃ t ∈ mergeDedup (normalize_url parse) (firecrawl_results ++ kaggle_results) [],
          normalize_url parse t.url = normalize_url parse s.url) := by
  refine ⟨mergeDedup_sublist _ _ _, (mergeDedup_nodup_aux _ _ _).1, ?_, ?_⟩
  · intro i h hfirst
    exact mergeDedup_first_mem _ _ _ i h (by simp) hfirst
  · intro s hs
    exact mergeDedup_covers _ _ _ s hs (by simp)

/-- Concrete candidates for the C2 witness: `c2B` duplicates `c2A`'s
normalized identity (case and trailing slash differ). -/
def c2A : SourceDoc := { url := "https://b.com" }

def c2B : SourceDoc := { url := "HTTPS://B.COM/" }

def c2C : SourceDoc := { url := "https://c.com" }

/-- Concrete run of the C2 theorem: candidate at index 2 (`c2C`) is a first
occurrence in `[c2A, c2B] ++ [c2C]` and survives the merge. -/
theorem dedup_first_seen_wins_witness :
    (normalize_url (fun _ => none) c2A.url ≠ normalize_url (fun _ => none) c2C.url
      ∧ normalize_url (fun _ => none) c2B.url ≠ normalize_url (fun _ => none) c2C.url)
    ∧ c2C ∈ mergeDedup (normalize_url (fun _ => none)) ([c2A, c2B] ++ [c2C]) [] := by
  refine ⟨⟨by decide, by decide⟩, ?_⟩
  have h3 : (2 : Nat) < ([c2A, c2B] ++ [c2C]).length := by decide
  have h := (dedup_first_seen_wins (fun _ => none) [c2A, c2B] [c2C]).2.2.1 2 h3 ?_
  · simpa using h
  · intro j hj
    interval_cases j
    · exact (by decide :
        normalize_url (fun _ => none) c2A.url ≠ normalize_url (fun _ => none) c2C.url)
    · exact (by decide :
        normalize_url (fun _ => none) c2B.url ≠ normalize_url (fun _ => none) c2C.url)

/-! ## Project store and relevance cache state (db/schemas.py, mongodb collections) -/

/-- A `relevance_cache` collection entry (schemas.py `RelevanceCache`). -/
structure CacheEntry where
  url : String
  relevance_score : Int
  source_type : String
  expires_at : Nat
deriving Repr, DecidableEq

/-- An element of the `high_quality_sources` list accumulated by
`score_relevance_batch` (a dict `{url, relevance_score, source_type}`). -/
structure HQSource where
  url : String
  relevance_score : Int
  source_type : String
deriving Repr, DecidableEq

/-- The project-level `selected_source` summary written by `select_best_source`. -/
structure SelectedSource where
  url : String
  relevance_score : Int
  source_type : String
  features_found : List String
  quality_rating : Option Int
  credibility_tier : String
deriving Repr, DecidableEq

/-- The `discovery_chain` field written by `parse_intent`. -/
structure DiscoveryChain where
  original_prompt : String
  generated_queries : List String
deriving Repr, DecidableEq

/-- The externally visible MongoDB state touched by the discovery pipeline:
the project document (discovery chain, `sources` array, `selected_source`)
and the `relevance_cache` collection.  `calls` is an observation log of the
invocations of the scoring collaborator (`openrouter_service.score_relevance`),
recording the `title` argument (the candidate's URL). -/
structure ProjDB where
  discovery_chain : Option DiscoveryChain := none
  docs : List SourceDoc := []
  cache : List CacheEntry := []
  selected_source : Option SelectedSource := none
  calls : List String := []
deriving Repr, DecidableEq

/-- `find_one` on the `sources` array by URL. -/
def findDoc (docs : List SourceDoc) (url : String) : Option SourceDoc :=
  docs.find? (fun d => d.url == url)

/-- Mongo `update_one({"sources.url": url}, {"$set": ...})`: update the first
array element whose `url` matches (no-op when absent). -/
def updateDoc (docs : List SourceDoc) (url : String) (f : SourceDoc → SourceDoc) :
    List SourceDoc :=
  match docs with
  | [] => []
  | d :: rest => if d.url == url then f d :: rest else d :: updateDoc rest url f

/-- `relevance_cache.find_one({"url": nurl, "expires_at": {"$gt": now}})`:
first entry for the normalized URL whose expiry is strictly in the future. -/
def cacheLookup (cache : List CacheEntry) (now : Nat) (nurl : String) : Option CacheEntry :=
  cache.find? (fun e => e.url == nurl && decide (now < e.expires_at))

/-- `relevance_cache.update_one({"url": e.url}, {"$set": ...}, upsert=True)`. -/
def cacheUpsert : List CacheEntry → CacheEntry → List CacheEntry
  | [], e => [e]
  | d :: rest, e => if d.url == e.url then e :: rest else d :: cacheUpsert rest e

theorem findDoc_updateDoc (f : SourceDoc → SourceDoc) (hf : ∀ d, (f d).url = d.url)
    (url u : String) :
    ∀ docs : List SourceDoc,
      findDoc (updateDoc docs url f) u =
        if u = url then (findDoc docs url).map f else findDoc docs u := by
  intro docs
  induction docs with
  | nil => simp [findDoc, updateDoc]
  | cons d rest ih =>
      by_cases hd : d.url = url
      · by_cases hu : u = url
        · subst hu
          simp [findDoc, updateDoc, List.find?_cons, hd, hf]
        · have h1 : (d.url == u) = false := by simp [hd, Ne.symm hu]
          have h2 : ((f d).url == u) = false := by simp [hf, hd, Ne.symm hu]
          have h3 : (url == u) = false := by simp [Ne.symm hu]
          simp [findDoc, updateDoc, List.find?_cons, hd, h1, h2, h3, hu]
      · have h1 : (d.url == url) = false := by simp [hd]
        by_cases hu : u = url
        · subst hu
          simp only [findDoc, updateDoc, h1, Bool.false_eq_true, if_false, if_true]
          simp only [findDoc] at ih
          simp [List.find?_cons, h1, ih]
        · simp only [findDoc, updateDoc, h1, Bool.false_eq_true, if_false]
          simp only [findDoc] at ih
          by_cases hdu : d.url = u
          · simp [List.find?_cons, hdu, hu]
          · have h2 : (d.url == u) = false := by simp [hdu]
            simp [List.find?_cons, h2, ih, hu]

/-! ## Relevance scoring with cache and early stop — `score_relevance_batch`
(discovery.py 178-264)

The scoring collaborator `openrouter_service.score_relevance` is an oracle
`scorer : String → Except String (Int × String)` from the candidate's URL
(passed as `title`) to either a `(relevance_score, source_type)` judgment or a
raised error (`RuntimeError` in openrouter.py 234-236). -/

/-- `MIN_HIGH_QUALITY_SOURCES` (discovery.py line 21). -/
def MIN_HIGH_QUALITY_SOURCES : Nat := 5

/-- The cache TTL, `timedelta(hours=24)`, in hours. -/
def ttl24 : Nat := 24

/-- The `$set` applied to a scored candidate (discovery.py 238-250):
`relevance_score`, `source_type`, and `validated`/`rejected` by the
`score > 70` threshold. -/
def scoreUpdate (sc : Int) (ty : String) (d : SourceDoc) : SourceDoc :=
  { d with
    relevance_score := some sc
    source_type := some ty
    status := if sc > 70 then "validated" else "rejected" }

/-- The per-candidate tail of the scoring loop body (discovery.py 235-258):
set the candidate's status from the `score > 70` threshold, persist score and
type, and append to the high-quality accumulator when above threshold. -/
def applyScore (db : ProjDB) (hq : List HQSource) (url : String) (sc : Int) (ty : String) :
    ProjDB × List HQSource :=
  let is_high_quality := sc > 70
  let db1 := { db with docs := updateDoc db.docs url (scoreUpdate sc ty) }
  if is_high_quality then (db1, hq ++ [⟨url, sc, ty⟩]) else (db1, hq)

/-- One iteration of the scoring loop (discovery.py 195-258): cache lookup by
normalized URL; on a hit reuse the cached score/type, otherwise invoke the
scoring collaborator and upsert the cache (TTL 24h).  A raised scoring error
propagates (there is no handler in the loop), carrying the mutated store. -/
def scoreOne (parse : String → Option UrlParts) (scorer : String → Except String (Int × String))
    (now : Nat) (db : ProjDB) (hq : List HQSource) (src : SourceDoc) :
    Except ProjDB (ProjDB × List HQSource) :=
  let url := src.url
  let nurl := normalize_url parse url
  match cacheLookup db.cache now nurl with
  | some e => .ok (applyScore db hq url e.relevance_score e.source_type)
  | none =>
      match scorer url with
      | .error _ => .error { db with calls := db.calls ++ [url] }
      | .ok (sc, ty) =>
          let db1 := { db with
            calls := db.calls ++ [url]
            cache := cacheUpsert db.cache ⟨nurl, sc, ty, now + ttl24⟩ }
          .ok (applyScore db1 hq url sc ty)

/-- `score_relevance_batch` (discovery.py 178-264): process candidates in
order, stopping as soon as the high-quality accumulator has reached
`MIN_HIGH_QUALITY_SOURCES`. -/
def score_relevance_batch (parse : String → Option UrlParts)
    (scorer : String → Except String (Int × String)) (now : Nat) :
    List SourceDoc → ProjDB → List HQSource → Except ProjDB (ProjDB × List HQSource)
  | [], db, hq => .ok (db, hq)
  | src :: rest, db, hq =>
      if hq.length ≥ MIN_HIGH_QUALITY_SOURCES then .ok (db, hq)
      else
        match scoreOne parse scorer now db hq src with
        | .error db1 => .error db1
        | .ok (db1, hq1) => score_relevance_batch parse scorer now rest db1 hq1

/-- Reference loop without the early-stop check: scores every candidate of its
input.  Used to state which prefix the real loop processed. -/
def scoreAll (parse : String → Option UrlParts)
    (scorer : String → Except String (Int × String)) (now : Nat) :
    List SourceDoc → ProjDB → List HQSource → Except ProjDB (ProjDB × List HQSource)
  | [], db, hq => .ok (db, hq)
  | src :: rest, db, hq =>
      match scoreOne parse scorer now db hq src with
      | .error db1 => .error db1
      | .ok (db1, hq1) => scoreAll parse scorer now rest db1 hq1

/-- Project the store out of a possibly-failed scoring run. -/
def dbOf : Except ProjDB (ProjDB × List HQSource) → ProjDB
  | .error db => db
  | .ok p => p.1

/-- Whether a scoring-collaborator call returned normally. -/
def isOkE (e : Except String (Int × String)) : Bool :=
  match e with
  | .ok _ => true
  | .error _ => false

theorem applyScore_fst (db : ProjDB) (hq : List HQSource) (url : String) (sc : Int)
    (ty : String) :
    (applyScore db hq url sc ty).1 =
      { db with docs := updateDoc db.docs url (scoreUpdate sc ty) } := by
  simp only [applyScore]
  split <;> rfl

theorem applyScore_len (db : ProjDB) (hq : List HQSource) (url : String) (sc : Int)
    (ty : String) :
    hq.length ≤ (applyScore db hq url sc ty).2.length
    ∧ (applyScore db hq url sc ty).2.length ≤ hq.length + 1 := by
  simp only [applyScore]
  split <;> simp

theorem scoreOne_ok (parse : String → Option UrlParts)
    (scorer : String → Except String (Int × String)) (now : Nat) (db : ProjDB)
    (hq : List HQSource) (src : SourceDoc) (hsc : isOkE (scorer src.url) = true) :
    ∃ db1 hq1, scoreOne parse scorer now db hq src = .ok (db1, hq1)
      ∧ hq.length ≤ hq1.length ∧ hq1.length ≤ hq.length + 1 := by
  simp only [scoreOne]
  cases hcl : cacheLookup db.cache now (normalize_url parse src.url) with
  | some e =>
      exact ⟨(applyScore db hq src.url e.relevance_score e.source_type).1,
        (applyScore db hq src.url e.relevance_score e.source_type).2, rfl,
        (applyScore_len db hq src.url e.relevance_score e.source_type).1,
        (applyScore_len db hq src.url e.relevance_score e.source_type).2⟩
  | none =>
      cases hs : scorer src.url with
      | error msg => rw [hs] at hsc; simp [isOkE] at hsc
      | ok p =>
          obtain ⟨sc, ty⟩ := p
          exact ⟨_, _, rfl,
            (applyScore_len _ hq src.url sc ty).1,
            (applyScore_len _ hq src.url sc ty).2⟩

/-- Once the quality target is reached, the loop stops before touching any
further candidate. -/
theorem batch_stop (parse : String → Option UrlParts)
    (scorer : String → Except String (Int × String)) (now : Nat) (l : List SourceDoc)
    (db : ProjDB) (hq : List HQSource) (h : hq.length ≥ MIN_HIGH_QUALITY_SOURCES) :
    score_relevance_batch parse scorer now l db hq = .ok (db, hq) := by
  cases l with
  | nil => rfl
  | cons src rest => simp [score_relevance_batch, h]

theorem batch_take (parse : String → Option UrlParts)
    (scorer : String → Except String (Int × String)) (now : Nat)
    (hsc : ∀ u, isOkE (scorer u) = true) :
    ∀ (l : List SourceDoc) (db : ProjDB) (hq : List HQSource),
      hq.length < MIN_HIGH_QUALITY_SOURCES →
      ∃ n ≤ l.length, ∃ dbF hqF,
        score_relevance_batch parse scorer now l db hq = .ok (dbF, hqF)
        ∧ scoreAll parse scorer now (l.take n) db hq = .ok (dbF, hqF)
        ∧ (∀ m < n, ∃ dbm hqm,
            scoreAll parse scorer now (l.take m) db hq = .ok (dbm, hqm)
            ∧ hqm.length < MIN_HIGH_QUALITY_SOURCES)
        ∧ (n < l.length → hqF.length = MIN_HIGH_QUALITY_SOURCES) := by
  intro l
  induction l with
  | nil =>
      intro db hq hlt
      exact ⟨0, Nat.le_refl 0, db, hq, rfl, rfl,
        fun m hm => absurd hm (Nat.not_lt_zero m), fun h => absurd h (Nat.not_lt_zero 0)⟩
  | cons src rest ih =>
      intro db hq hlt
      have hnot : ¬ hq.length ≥ MIN_HIGH_QUALITY_SOURCES := by omega
      obtain ⟨db1, hq1, hso, hlb, hub⟩ := scoreOne_ok parse scorer now db hq src (hsc src.url)
      by_cases hstop : hq1.length ≥ MIN_HIGH_QUALITY_SOURCES
      · have hstep : score_relevance_batch parse scorer now (src :: rest) db hq =
            score_relevance_batch parse scorer now rest db1 hq1 := by
          simp [score_relevance_batch, hnot, hso]
        have hEq : hq1.length = MIN_HIGH_QUALITY_SOURCES := by omega
        refine ⟨1, by simp, db1, hq1, ?_, ?_, ?_, fun _ => hEq⟩
        · rw [hstep]; exact batch_stop parse scorer now rest db1 hq1 hstop
        · simp [scoreAll, hso]
        · intro m hm
          have hm0 : m = 0 := by omega
          subst hm0
          exact ⟨db, hq, rfl, hlt⟩
      · obtain ⟨n, hn, dbF, hqF, h1, h2, h3, h4⟩ := ih db1 hq1 (by omega)
        refine ⟨n + 1, by simpa using Nat.succ_le_succ hn, dbF, hqF, ?_, ?_, ?_, ?_⟩
        · simpa [score_relevance_batch, hnot, hso] using h1
        · simpa [scoreAll, hso] using h2
        · intro m hm
          match m with
          | 0 => exact ⟨db, hq, rfl, hlt⟩
          | Nat.succ k =>
              obtain ⟨dbm, hqm, hsm, hlm⟩ := h3 k (Nat.lt_of_succ_lt_succ hm)
              exact ⟨dbm, hqm, by simpa [scoreAll, hso] using hsm, hlm⟩
        · intro h
          exact h4 (Nat.lt_of_succ_lt_succ h)

theorem findDoc_updateDoc_ne (docs : List SourceDoc) (url u : String) (hne : u ≠ url)
    (f : SourceDoc → SourceDoc) (hf : ∀ d, (f d).url = d.url) :
    findDoc (updateDoc docs url f) u = findDoc docs u := by
  rw [findDoc_updateDoc f hf url u docs]
  simp [hne]

theorem applyScore_frame (db : ProjDB) (hq : List HQSource) (url : String) (sc : Int)
    (ty : String) (u : String) (hne : u ≠ url) :
    findDoc (applyScore db hq url sc ty).1.docs u = findDoc db.docs u
    ∧ (applyScore db hq url sc ty).1.calls = db.calls := by
  rw [applyScore_fst]
  refine ⟨?_, rfl⟩
  show findDoc (updateDoc db.docs url (scoreUpdate sc ty)) u = findDoc db.docs u
  exact findDoc_updateDoc_ne db.docs url u hne (scoreUpdate sc ty) (fun d => rfl)

theorem scoreOne_frame (parse : String → Option UrlParts)
    (scorer : String → Except String (Int × String)) (now : Nat) (db : ProjDB)
    (hq : List HQSource) (src : SourceDoc) (u : String) (hne : u ≠ src.url) :
    findDoc (dbOf (scoreOne parse scorer now db hq src)).docs u = findDoc db.docs u
    ∧ (dbOf (scoreOne parse scorer now db hq src)).calls.count u = db.calls.count u := by
  have hcount : ∀ l : List String, (l ++ [src.url]).count u = l.count u := by
    intro l
    simp [List.count_append, List.count_singleton', hne]
  simp only [scoreOne]
  cases hcl : cacheLookup db.cache now (normalize_url parse src.url) with
  | some e =>
      have h := applyScore_frame db hq src.url e.relevance_score e.source_type u hne
      exact ⟨h.1, congrArg (List.count u) h.2⟩
  | none =>
      cases hs : scorer src.url with
      | error msg =>
          exact ⟨rfl, hcount db.calls⟩
      | ok p =>
          obtain ⟨sc, ty⟩ := p
          exact ⟨(applyScore_frame _ hq src.url sc ty u hne).1,
            Eq.trans (congrArg (List.count u) (applyScore_frame _ hq src.url sc ty u hne).2)
              (hcount db.calls)⟩

theorem scoreAll_frame (parse : String → Option UrlParts)
    (scorer : String → Except String (Int × String)) (now : Nat) (u : String) :
    ∀ (l : List SourceDoc) (db : ProjDB) (hq : List HQSource),
      u ∉ l.map (fun s => s.url) →
      findDoc (dbOf (scoreAll parse scorer now l db hq)).docs u = findDoc db.docs u
      ∧ (dbOf (scoreAll parse scorer now l db hq)).calls.count u = db.calls.count u := by
  intro l
  induction l with
  | nil => intro db hq _; exact ⟨rfl, rfl⟩
  | cons src rest ih =>
      intro db hq hu
      have hne : u ≠ src.url := by
        intro h; exact hu (by simp [h])
      have hrest : u ∉ rest.map (fun s => s.url) := by
        intro h; exact hu (by simp [h])
      have hone := scoreOne_frame parse scorer now db hq src u hne
      cases hso : scoreOne parse scorer now db hq src with
      | error db1 =>
          rw [hso] at hone
          simpa [scoreAll, hso, dbOf] using hone
      | ok p =>
          obtain ⟨db1, hq1⟩ := p
          rw [hso] at hone
          have hih := ih db1 hq1 hrest
          simp only [dbOf] at hone
          constructor
          · simp only [scoreAll, hso]
            rw [hih.1, hone.1]
          · simp only [scoreAll, hso]
            rw [hih.2, hone.2]

/-- **C1.** In `score_relevance_batch` with threshold `score > 70` and quality
target `MIN_HIGH_QUALITY_SOURCES = 5`, when every scoring call returns
normally the run processes exactly a prefix of the candidate list: the result
equals scoring the first `n` candidates unconditionally, every strictly
shorter prefix has fewer validated candidates than the target (the loop halts
exactly when the count first reaches it), an early stop means the validated
count equals the target, and every URL outside the processed prefix is
neither scored (no collaborator call) nor has its document — in particular
its `pending_validation` status — changed. -/
theorem score_batch_early_stop (parse : String → Option UrlParts)
    (scorer : String → Except String (Int × String)) (now : Nat)
    (sources : List SourceDoc) (db : ProjDB)
    (hsc : ∀ u, isOkE (scorer u) = true) :
    ∃ n ≤ sources.length, ∃ dbF hqF,
      score_relevance_batch parse scorer now sources db [] = .ok (dbF, hqF)
      ∧ scoreAll parse scorer now (sources.take n) db [] = .ok (dbF, hqF)
      ∧ (∀ m < n, ∃ dbm hqm,
          scoreAll parse scorer now (sources.take m) db [] = .ok (dbm, hqm)
          ∧ hqm.length < MIN_HIGH_QUALITY_SOURCES)
      ∧ (n < sources.length → hqF.length = MIN_HIGH_QUALITY_SOURCES)
      ∧ ∀ u, u ∉ (sources.take n).map (fun s => s.url) →
          findDoc dbF.docs u = findDoc db.docs u
          ∧ dbF.calls.count u = db.calls.count u := by
  obtain ⟨n, hn, dbF, hqF, h1, h2, h3, h4⟩ :=
    batch_take parse scorer now hsc sources db []
      (by simp [MIN_HIGH_QUALITY_SOURCES])
  refine ⟨n, hn, dbF, hqF, h1, h2, h3, h4, ?_⟩
  intro u hu
  have hfr := scoreAll_frame parse scorer now u (sources.take n) db [] hu
  rw [h2] at hfr
  simpa [dbOf] using hfr

/-- Shared builder for concrete candidate documents. -/
def mkDoc (u : String) : SourceDoc := { url := u }

/-- Six concrete pending candidates for the C1 witness. -/
def c1sources : List SourceDoc :=
  [mkDoc "https://a1.com", mkDoc "https://a2.com", mkDoc "https://a3.com",
   mkDoc "https://a4.com", mkDoc "https://a5.com", mkDoc "https://a6.com"]

/-- Concrete run of the C1 theorem: an always-80 scorer over six candidates. -/
theorem score_batch_early_stop_witness :
    (∀ u, isOkE ((fun _ : String => (.ok (80, "Dataset") : Except String (Int × String))) u) = true)
    ∧ ∃ n ≤ c1sources.length, ∃ dbF hqF,
        score_relevance_batch (fun _ => none)
            (fun _ => (.ok (80, "Dataset") : Except String (Int × String))) 0
            c1sources { docs := c1sources } [] = .ok (dbF, hqF)
        ∧ scoreAll (fun _ => none)
            (fun _ => (.ok (80, "Dataset") : Except String (Int × String))) 0
            (c1sources.take n) { docs := c1sources } [] = .ok (dbF, hqF)
        ∧ (∀ m < n, ∃ dbm hqm,
            scoreAll (fun _ => none)
              (fun _ => (.ok (80, "Dataset") : Except String (Int × String))) 0
              (c1sources.take m) { docs := c1sources } [] = .ok (dbm, hqm)
            ∧ hqm.length < MIN_HIGH_QUALITY_SOURCES)
        ∧ (n < c1sources.length → hqF.length = MIN_HIGH_QUALITY_SOURCES)
        ∧ ∀ u, u ∉ (c1sources.take n).map (fun s => s.url) →
            findDoc dbF.docs u = findDoc ({ docs := c1sources } : ProjDB).docs u
            ∧ dbF.calls.count u = ({ docs := c1sources } : ProjDB).calls.count u :=
  ⟨fun _ => rfl,
   score_batch_early_stop (fun _ => none)
     (fun _ => (.ok (80, "Dataset") : Except String (Int × String))) 0
     c1sources { docs := c1sources } (fun _ => rfl)⟩

/-! ## C3: cache hits never invoke the scoring collaborator -/

theorem cacheLookup_upsert_ne (now : Nat) (nurl : String) (e : CacheEntry)
    (hne : e.url ≠ nurl) :
    ∀ cache : List CacheEntry,
      cacheLookup (cacheUpsert cache e) now nurl = cacheLookup cache now nurl := by
  intro cache
  have hpe : (e.url == nurl && decide (now < e.expires_at)) = false := by
    simp [hne]
  induction cache with
  | nil => simp [cacheUpsert, cacheLookup, List.find?_cons, hpe]
  | cons d rest ih =>
      by_cases hd : d.url = e.url
      · have he : (e.url == nurl) = false := by simp [hne]
        have hpd : (d.url == nurl && decide (now < d.expires_at)) = false := by
          simp [hd, hne]
        simp [cacheUpsert, hd, cacheLookup, List.find?_cons, hpe, hpd, he]
      · have hd' : (d.url == e.url) = false := by simp [hd]
        simp only [cacheUpsert, hd', Bool.false_eq_true, if_false]
        simp only [cacheLookup, List.find?_cons] at ih ⊢
        cases hp : (d.url == nurl && decide (now < d.expires_at)) <;> simp [hp, ih]

theorem scoreOne_cache_live (parse : String → Option UrlParts)
    (scorer : String → Except String (Int × String)) (now : Nat) (db : ProjDB)
    (hq : List HQSource) (src : SourceDoc) (u : String)
    (hlive : (cacheLookup db.cache now (normalize_url parse u)).isSome = true) :
    (cacheLookup (dbOf (scoreOne parse scorer now db hq src)).cache now
      (normalize_url parse u)).isSome = true
    ∧ (dbOf (scoreOne parse scorer now db hq src)).calls.count u = db.calls.count u := by
  simp only [scoreOne]
  cases hcl : cacheLookup db.cache now (normalize_url parse src.url) with
  | some e =>
      have hc : (applyScore db hq src.url e.relevance_score e.source_type).1.cache
          = db.cache := by rw [applyScore_fst]
      have hca : (applyScore db hq src.url e.relevance_score e.source_type).1.calls
          = db.calls := by rw [applyScore_fst]
      exact ⟨by rw [show (dbOf (.ok (applyScore db hq src.url e.relevance_score
            e.source_type))) = (applyScore db hq src.url e.relevance_score e.source_type).1
            from rfl, hc]; exact hlive,
        by rw [show (dbOf (.ok (applyScore db hq src.url e.relevance_score
            e.source_type))) = (applyScore db hq src.url e.relevance_score e.source_type).1
            from rfl, hca]⟩
  | none =>
      have hnn : normalize_url parse src.url ≠ normalize_url parse u := by
        intro hcontr
        rw [hcontr] at hcl
        rw [hcl] at hlive
        simp at hlive
      have hu : src.url ≠ u := fun hconte => hnn (by rw [hconte])
      have hcount : (db.calls ++ [src.url]).count u = db.calls.count u := by
        simp [List.count_append, List.count_singleton', hu, Ne.symm hu]
      cases hs : scorer src.url with
      | error msg => exact ⟨hlive, hcount⟩
      | ok p =>
          obtain ⟨sc, ty⟩ := p
          constructor
          · have hc1 : (applyScore { db with
                calls := db.calls ++ [src.url]
                cache := cacheUpsert db.cache
                  ⟨normalize_url parse src.url, sc, ty, now + ttl24⟩ } hq src.url sc ty).1.cache
                = cacheUpsert db.cache
                  ⟨normalize_url parse src.url, sc, ty, now + ttl24⟩ := by
              rw [applyScore_fst]
            show (cacheLookup (applyScore _ hq src.url sc ty).1.cache now
              (normalize_url parse u)).isSome = true
            rw [hc1, cacheLookup_upsert_ne now (normalize_url parse u)
              ⟨normalize_url parse src.url, sc, ty, now + ttl24⟩ hnn db.cache]
            exact hlive
          · have hc2 : (applyScore { db with
                calls := db.calls ++ [src.url]
                cache := cacheUpsert db.cache
                  ⟨normalize_url parse src.url, sc, ty, now + ttl24⟩ } hq src.url sc ty).1.calls
                = db.calls ++ [src.url] := by
              rw [applyScore_fst]
            show ((applyScore _ hq src.url sc ty).1.calls).count u = db.calls.count u
            rw [hc2]
            exact hcount

theorem batch_cached_no_calls (parse : String → Option UrlParts)
    (scorer : String → Except String (Int × String)) (now : Nat) (u : String) :
    ∀ (l : List SourceDoc) (db : ProjDB) (hq : List HQSource),
      (cacheLookup db.cache now (normalize_url parse u)).isSome = true →
      (dbOf (score_relevance_batch parse scorer now l db hq)).calls.count u
        = db.calls.count u := by
  intro l
  induction l with
  | nil => intro db hq _; rfl
  | cons src rest ih =>
      intro db hq hlive
      by_cases hstop : hq.length ≥ MIN_HIGH_QUALITY_SOURCES
      · simp [score_relevance_batch, hstop, dbOf]
      · have hone := scoreOne_cache_live parse scorer now db hq src u hlive
        cases hso : scoreOne parse scorer now db hq src with
        | error db1 =>
            rw [hso] at hone
            simpa [score_relevance_batch, hstop, hso, dbOf] using hone.2
        | ok p =>
            obtain ⟨db1, hq1⟩ := p
            rw [hso] at hone
            simp only [dbOf] at hone
            have hrec := ih db1 hq1 hone.1
            simp only [score_relevance_batch, hstop, if_false, hso]
            rw [hrec, hone.2]

/-- **C3.** In `score_relevance_batch`, when the cache holds a non-expired
entry (`expires_at` strictly after `now`) for a candidate's normalized
identity, the loop body reuses the cached score and source type verbatim
(the candidate's status update is computed from them), and the scoring
collaborator is never invoked for that candidate for the rest of the batch:
its call count for that URL is unchanged however the batch ends. -/
theorem cache_hit_skips_scorer (parse : String → Option UrlParts)
    (scorer : String → Except String (Int × String)) (now : Nat) (db : ProjDB)
    (hq : List HQSource) (src : SourceDoc) (e : CacheEntry)
    (h : cacheLookup db.cache now (normalize_url parse src.url) = some e) :
    scoreOne parse scorer now db hq src
      = .ok (applyScore db hq src.url e.relevance_score e.source_type)
    ∧ ∀ rest : List SourceDoc,
        (dbOf (score_relevance_batch parse scorer now (src :: rest) db hq)).calls.count src.url
          = db.calls.count src.url := by
  constructor
  · simp only [scoreOne, h]
  · intro rest
    exact batch_cached_no_calls parse scorer now src.url (src :: rest) db hq
      (by rw [h]; rfl)

/-- Concrete cache entry and store for the C3 witness: a live entry for
`https://a.com` at time 0, and a scorer that would return a different
judgment if it were (wrongly) consulted. -/
def c3entry : CacheEntry :=
  { url := "https://a.com", relevance_score := 95, source_type := "Dataset", expires_at := 10 }

def c3src : SourceDoc := mkDoc "https://a.com"

def c3db : ProjDB := { docs := [c3src], cache := [c3entry] }

def c3scorer : String → Except String (Int × String) := fun _ => .ok (10, "Article")

/-- Concrete run of the C3 theorem at the witness store. -/
theorem cache_hit_skips_scorer_witness :
    cacheLookup c3db.cache 0 (normalize_url (fun _ => none) c3src.url) = some c3entry
    ∧ (scoreOne (fun _ => none) c3scorer 0 c3db [] c3src
        = .ok (applyScore c3db [] c3src.url c3entry.relevance_score c3entry.source_type)
      ∧ ∀ rest : List SourceDoc,
          (dbOf (score_relevance_batch (fun _ => none) c3scorer 0 (c3src :: rest)
            c3db [])).calls.count c3src.url = c3db.calls.count c3src.url) :=
  ⟨by decide,
   cache_hit_skips_scorer (fun _ => none) c3scorer 0 c3db [] c3src c3entry (by decide)⟩

/-! ## C5: a raised scoring error aborts the batch (candidate left pending) -/

def c5docA : SourceDoc := mkDoc "https://a.com"

def c5docB : SourceDoc := mkDoc "https://b.com"

def c5scorer : String → Except String (Int × String) := fun u =>
  if u == "https://a.com" then .error "LLM failure" else .ok (80, "Dataset")

def c5db : ProjDB := { docs := [c5docA, c5docB] }

/-- **C5 (counterexample).** With two pending candidates and a scorer that
raises on the first, `score_relevance_batch` does *not* continue with the
remaining candidate: the run aborts with the propagated error after a single
collaborator call (only for the first URL), the second candidate is never
scored, and no status was written (both documents still `pending_validation`).
This refutes the claim that a single scoring failure leaves the loop running
over the remaining candidates. -/
theorem scoring_failure_aborts_batch_counterexample :
    score_relevance_batch (fun _ => none) c5scorer 0 [c5docA, c5docB] c5db []
      = .error { c5db with calls := ["https://a.com"] }
    ∧ (dbOf (score_relevance_batch (fun _ => none) c5scorer 0 [c5docA, c5docB] c5db [])).docs
        = [c5docA, c5docB]
    ∧ c5docB.url ∉
        (dbOf (score_relevance_batch (fun _ => none) c5scorer 0 [c5docA, c5docB] c5db [])).calls := by
  refine ⟨by decide, by decide, by decide⟩

/-- **C5 (amended).** When a scoring call raises (cache miss, collaborator
error) the candidate is indeed left `pending_validation` — no status write
occurs, so it is not `rejected` and is retryable on a later run — but the
failure is not local: the exception propagates out of the loop, the batch
aborts with the store unchanged except for the recorded collaborator call,
and no later candidate is scored. -/
theorem scoring_failure_leaves_pending_aborts (parse : String → Option UrlParts)
    (scorer : String → Except String (Int × String)) (now : Nat) (src : SourceDoc)
    (rest : List SourceDoc) (db : ProjDB) (hq : List HQSource) (msg : String)
    (h1 : hq.length < MIN_HIGH_QUALITY_SOURCES)
    (h2 : cacheLookup db.cache now (normalize_url parse src.url) = none)
    (h3 : scorer src.url = .error msg) :
    score_relevance_batch parse scorer now (src :: rest) db hq
      = .error { db with calls := db.calls ++ [src.url] } := by
  have hnot : ¬ hq.length ≥ MIN_HIGH_QUALITY_SOURCES := by omega
  simp [score_relevance_batch, hnot, scoreOne, h2, h3]

/-- Concrete run of the amended C5 theorem at the counterexample store. -/
theorem scoring_failure_leaves_pending_aborts_witness :
    (([] : List HQSource).length < MIN_HIGH_QUALITY_SOURCES
      ∧ cacheLookup c5db.cache 0 (normalize_url (fun _ => none) c5docA.url) = none
      ∧ c5scorer c5docA.url = .error "LLM failure")
    ∧ score_relevance_batch (fun _ => none) c5scorer 0 (c5docA :: [c5docB]) c5db []
        = .error { c5db with calls := c5db.calls ++ [c5docA.url] } :=
  ⟨⟨by decide, by decide, by decide⟩,
   scoring_failure_leaves_pending_aborts (fun _ => none) c5scorer 0 c5docA [c5docB]
     c5db [] "LLM failure" (by decide) (by decide) (by decide)⟩

/-! ## Source selection and enrichment cascade — `select_best_source`
(discovery.py 267-405)

Collaborators: `firecrawl_service.scrape` as `scrape : String → ScrapeResult`,
`openrouter_service.detect_schema` as `detect` keyed by the scraped sample,
and `urlparse(url).hostname` as `hostname`. -/

/-- `FirecrawlScrapeResult` (firecrawl.py 25-35); `metadata` is opaque. -/
structure ScrapeResult where
  success : Bool
  content : Option String := none
  markdown : Option String := none
  metadata : Option String := none
  rate_limited : Bool := false
  retry_after : Option Nat := none
  error : Option String := none
deriving Repr, DecidableEq

/-- `SchemaDetectionResult` (openrouter.py 43-47). -/
structure SchemaResult where
  features_found : List String
  quality_rating : Option Int
deriving Repr, DecidableEq

/-- Python truthiness chain `a or b` for optional strings (`""` is falsy). -/
def pyOrStr (a : Option String) (b : String) : String :=
  match a with
  | some s => if s.data.isEmpty then b else s
  | none => b

/-- Status-only `$set` on a candidate document. -/
def setStatus (s : String) (d : SourceDoc) : SourceDoc := { d with status := s }

/-- Credibility-tier classification (discovery.py 350-361): `.gov`/`.edu`
suffix or a `github.com`/`kaggle.com` host is `high`, else `medium`; a missing
hostname (or `urlparse` failure) yields `medium`. -/
def credibilityTier (hostname : String → Option String) (url : String) : String :=
  match hostname url with
  | none => "medium"
  | some h =>
      let domain := pyLower h
      if pyEndsWith domain ".gov" || pyEndsWith domain ".edu" then "high"
      else if containsSubstr domain "github.com" || containsSubstr domain "kaggle.com" then
        "high"
      else "medium"

/-- Stable descending sort by `relevance_score`
(`sorted(high_quality_sources, key=..., reverse=True)`; Python's sort is
stable, and a stable sort's output is unique, so Mathlib's insertion sort
with "comes before" relation `b.score ≤ a.score` computes exactly it). -/
def sortByScoreDesc (l : List HQSource) : List HQSource :=
  List.insertionSort (fun a b => b.relevance_score ≤ a.relevance_score) l

/-- Mark every backup source (discovery.py 288-293), in list order. -/
def markBackups (db : ProjDB) (backups : List HQSource) : ProjDB :=
  backups.foldl
    (fun db b => { db with docs := updateDoc db.docs b.url (setStatus "backup") }) db

/-- The backup cascade loop (discovery.py 309-328): mark the previously tried
URL `failed`, promote the next backup to `crawling`, scrape it, stop on the
first success.  Returns the last tried URL, its scrape result, and the store. -/
def cascade (scrape : String → ScrapeResult) :
    String → ScrapeResult → List HQSource → ProjDB → String × ScrapeResult × ProjDB
  | url, r, [], db => (url, r, db)
  | url, _, b :: rest, db =>
      let db1 := { db with docs := updateDoc db.docs url (setStatus "failed") }
      let db2 := { db1 with docs := updateDoc db1.docs b.url (setStatus "crawling") }
      let r1 := scrape b.url
      if r1.success then (b.url, r1, db2) else cascade scrape b.url r1 rest db2

/-- `select_best_source` (discovery.py 267-405): sort the high-quality list by
score (descending), mark the non-best as `backup`, scrape the best with
cascade to backups on failure; on overall scrape failure return; otherwise
enrich (schema detection, credibility tier, sample) and mark `selected`,
recording the project-level `selected_source` summary. -/
def select_best_source (scrape : String → ScrapeResult) (detect : String → SchemaResult)
    (hostname : String → Option String) (now : Nat) (high_quality_sources : List HQSource)
    (db : ProjDB) : ProjDB :=
  if high_quality_sources.isEmpty then db
  else
    match sortByScoreDesc high_quality_sources with
    | [] => db
    | best_source :: backup_sources =>
        let dbA := markBackups db backup_sources
        let dbB := { dbA with docs := updateDoc dbA.docs best_source.url (setStatus "crawling") }
        let r0 := scrape best_source.url
        let step := if r0.success then (best_source.url, r0, dbB)
                    else cascade scrape best_source.url r0 backup_sources dbB
        match step with
        | (url, r, dbC) =>
          if !r.success then dbC
          else
            let sample_content := pyOrStr r.markdown (pyOrStr r.content "")
            if sample_content.data.isEmpty then
              { dbC with docs := updateDoc dbC.docs url (setStatus "failed") }
            else
              let schema_result := detect sample_content
              let tier := credibilityTier hostname url
              let dbD := { dbC with docs := updateDoc dbC.docs url (fun d =>
                  { d with
                    status := "selected"
                    features_found := schema_result.features_found
                    quality_rating := schema_result.quality_rating
                    credibility_tier := some tier
                    raw_sample := some (pyTake sample_content 5000)
                    last_crawled := some now }) }
              let sel_score := if url == best_source.url then
                  ((high_quality_sources.head?).map (fun s => s.relevance_score)).getD 0
                else
                  ((backup_sources.find? (fun s => s.url == url)).map
                    (fun s => s.relevance_score)).getD 0
              let sel_type := if url == best_source.url then
                  ((high_quality_sources.head?).map (fun s => s.source_type)).getD "Dataset"
                else
                  ((backup_sources.find? (fun s => s.url == url)).map
                    (fun s => s.source_type)).getD "Dataset"
              let sel : SelectedSource :=
                ⟨url, sel_score, sel_type, schema_result.features_found,
                  schema_result.quality_rating, tier⟩
              { dbD with selected_source := some sel }

theorem map_setStatus_setStatus (o : Option SourceDoc) (a b : String) :
    (o.map (setStatus b)).map (setStatus a) = o.map (setStatus a) := by
  cases o <;> rfl

theorem findDoc_updateDoc_self (docs : List SourceDoc) (url : String)
    (f : SourceDoc → SourceDoc) (hf : ∀ d, (f d).url = d.url) :
    findDoc (updateDoc docs url f) url = (findDoc docs url).map f := by
  rw [findDoc_updateDoc f hf url url docs]
  simp

theorem markBackups_spec : ∀ (backups : List HQSource) (db : ProjDB),
    (markBackups db backups).selected_source = db.selected_source
    ∧ ∀ v, findDoc (markBackups db backups).docs v =
        if v ∈ backups.map (fun b => b.url) then (findDoc db.docs v).map (setStatus "backup")
        else findDoc db.docs v := by
  intro backups
  induction backups with
  | nil => intro db; exact ⟨rfl, fun v => by simp [markBackups]⟩
  | cons b rest ih =>
      intro db
      have hstep : markBackups db (b :: rest) =
          markBackups { db with docs := updateDoc db.docs b.url (setStatus "backup") } rest :=
        rfl
      obtain ⟨ih1, ih2⟩ := ih { db with docs := updateDoc db.docs b.url (setStatus "backup") }
      constructor
      · rw [hstep, ih1]
      · intro v
        have hupd : findDoc (updateDoc db.docs b.url (setStatus "backup")) v =
            if v = b.url then (findDoc db.docs b.url).map (setStatus "backup")
            else findDoc db.docs v := by
          rw [findDoc_updateDoc (setStatus "backup") (fun d => rfl) b.url v db.docs]
        rw [hstep, ih2 v, hupd]
        by_cases hvb : v = b.url
        · subst hvb
          have hmem : b.url ∈ (b :: rest).map (fun b => b.url) := by simp
          by_cases hv : b.url ∈ rest.map (fun b => b.url)
          · rw [if_pos hv, if_pos rfl, if_pos hmem]
            cases findDoc db.docs b.url <;> rfl
          · rw [if_neg hv, if_pos rfl, if_pos hmem]
        · have hiff : v ∈ (b :: rest).map (fun b => b.url) ↔
              v ∈ rest.map (fun b => b.url) := by
            simp [List.map_cons, List.mem_cons, hvb]
          by_cases hv : v ∈ rest.map (fun b => b.url)
          · rw [if_pos hv, if_neg hvb, if_pos (hiff.mpr hv)]
          · rw [if_neg hv, if_neg hvb, if_neg (fun hc => hv (hiff.mp hc))]

theorem cascade_all_fail (scrape : String → ScrapeResult)
    (hfail : ∀ u, (scrape u).success = false) :
    ∀ (backups : List HQSource) (url : String) (r : ScrapeResult) (db : ProjDB),
      r.success = false →
      url ∉ backups.map (fun b => b.url) →
      (backups.map (fun b => b.url)).Nodup →
      (cascade scrape url r backups db).2.1.success = false
      ∧ (cascade scrape url r backups db).2.2.selected_source = db.selected_source
      ∧ (∀ v, v ≠ url → v ∉ backups.map (fun b => b.url) →
          findDoc (cascade scrape url r backups db).2.2.docs v = findDoc db.docs v)
      ∧ (backups = [] → (cascade scrape url r backups db).2.2 = db)
      ∧ (backups ≠ [] →
          findDoc (cascade scrape url r backups db).2.2.docs url
            = (findDoc db.docs url).map (setStatus "failed"))
      ∧ ∀ i (h : i < backups.length),
          findDoc (cascade scrape url r backups db).2.2.docs ((backups.get ⟨i, h⟩).url)
            = (findDoc db.docs ((backups.get ⟨i, h⟩).url)).map
                (setStatus (if i = backups.length - 1 then "crawling" else "failed")) := by
  intro backups
  induction backups with
  | nil =>
      intro url r db hr _ _
      exact ⟨hr, rfl, fun v _ _ => rfl, fun _ => rfl,
        fun h => absurd rfl h,
        fun i h => absurd h (by simp)⟩
  | cons b rest ih =>
      intro url r db hr hnm hnd
      have hub : url ≠ b.url := by
        intro h; exact hnm (by simp [h])
      have hur : url ∉ rest.map (fun b => b.url) := by
        intro h; exact hnm (by simp [h])
      have hnd' : b.url ∉ rest.map (fun b => b.url) ∧ (rest.map (fun b => b.url)).Nodup := by
        rw [List.map_cons, List.nodup_cons] at hnd
        exact hnd
      have hbr : b.url ∉ rest.map (fun b => b.url) := hnd'.1
      have hndr : (rest.map (fun b => b.url)).Nodup := hnd'.2
      -- the store after marking `url` failed and `b.url` crawling
      have hstep : cascade scrape url r (b :: rest) db =
          cascade scrape b.url (scrape b.url) rest
            { db with docs := (updateDoc (updateDoc db.docs url (setStatus "failed"))
                b.url (setStatus "crawling")) } := by
        simp [cascade, hfail b.url]
      set db2 : ProjDB :=
        { db with docs := (updateDoc (updateDoc db.docs url (setStatus "failed"))
            b.url (setStatus "crawling")) } with hdb2
      have fd2 : ∀ v, findDoc db2.docs v =
          if v = b.url then
            (findDoc (updateDoc db.docs url (setStatus "failed")) b.url).map
              (setStatus "crawling")
          else findDoc (updateDoc db.docs url (setStatus "failed")) v := by
        intro v
        rw [hdb2]
        exact findDoc_updateDoc (setStatus "crawling") (fun d => rfl) b.url v _
      have fd1 : ∀ v, findDoc (updateDoc db.docs url (setStatus "failed")) v =
          if v = url then (findDoc db.docs url).map (setStatus "failed")
          else findDoc db.docs v := by
        intro v
        exact findDoc_updateDoc (setStatus "failed") (fun d => rfl) url v db.docs
      have fd2b : findDoc db2.docs b.url =
          (findDoc db.docs b.url).map (setStatus "crawling") := by
        rw [fd2 b.url]
        simp only [if_pos rfl]
        rw [fd1 b.url]
        simp [Ne.symm hub]
      have fd2u : findDoc db2.docs url =
          (findDoc db.docs url).map (setStatus "failed") := by
        rw [fd2 url]
        simp only [hub, if_false]
        rw [fd1 url]
        simp
      have fd2o : ∀ v, v ≠ url → v ≠ b.url → findDoc db2.docs v = findDoc db.docs v := by
        intro v hvu hvb
        rw [fd2 v]
        simp only [hvb, if_false]
        rw [fd1 v]
        simp [hvu]
      obtain ⟨ih1, ih2, ih3, ih4, ih5, ih6⟩ :=
        ih b.url (scrape b.url) db2 (hfail b.url) hbr hndr
      rw [hstep]
      refine ⟨ih1, ?_, ?_, ?_, ?_, ?_⟩
      · rw [ih2, hdb2]
      · intro v hvu hvm
        have hvb : v ≠ b.url := by
          intro h; exact hvm (by simp [h])
        have hvr : v ∉ rest.map (fun b => b.url) := by
          intro h; exact hvm (by simp [h])
        rw [ih3 v hvb hvr, fd2o v hvu hvb]
      · intro h; exact absurd h (by simp)
      · intro _
        have := ih3 url hub hur
        rw [this, fd2u]
      · intro i h
        match i with
        | 0 =>
            by_cases hrest : rest = []
            · subst hrest
              have hdc := ih4 rfl
              simp only [List.get]
              rw [hdc, fd2b]
              have hc0 : (0 : Nat) = (b :: ([] : List HQSource)).length - 1 := rfl
              rw [if_pos hc0]
            · have hdc := ih5 hrest
              simp only [List.get]
              rw [hdc, fd2b, map_setStatus_setStatus]
              have hlen : rest.length ≠ 0 := fun hc => hrest (List.length_eq_zero.mp hc)
              have hc0 : ¬ ((0 : Nat) = (b :: rest).length - 1) := by
                simp only [List.length_cons]
                omega
              rw [if_neg hc0]
        | Nat.succ j =>
            have hj : j < rest.length := Nat.lt_of_succ_lt_succ h
            have hv := ih6 j hj
            have hvmem : (rest.get ⟨j, hj⟩).url ∈ rest.map (fun b => b.url) :=
              List.mem_map.mpr ⟨rest.get ⟨j, hj⟩, List.get_mem rest j hj, rfl⟩
            have hvb : (rest.get ⟨j, hj⟩).url ≠ b.url := by
              intro hcontr; rw [hcontr] at hvmem; exact hbr hvmem
            have hvu : (rest.get ⟨j, hj⟩).url ≠ url := by
              intro hcontr; rw [hcontr] at hvmem; exact hur hvmem
            have hget : (b :: rest).get ⟨j + 1, h⟩ = rest.get ⟨j, hj⟩ := rfl
            rw [hget, hv, fd2o _ hvu hvb]
            have hcond : (j = rest.length - 1) ↔ (j + 1 = (b :: rest).length - 1) := by
              simp only [List.length_cons]
              omega
            by_cases hlast : j = rest.length - 1
            · rw [if_pos hlast, if_pos (hcond.mp hlast)]
            · rw [if_neg hlast, if_neg (fun hcontr => hlast (hcond.mpr hcontr))]

def c4hq : List HQSource := [⟨"https://a.com", 80, "Dataset"⟩]

def c4doc : SourceDoc :=
  { url := "https://a.com", status := "validated", relevance_score := some 80,
    source_type := some "Dataset" }

def c4db : ProjDB := { docs := [c4doc] }

def c4scrape : String → ScrapeResult := fun _ => { success := false, error := some "403" }

def c4detect : String → SchemaResult := fun _ => ⟨[], none⟩

def c4host : String → Option String := fun _ => none

/-- **C4 (counterexample).** With a single high-quality candidate whose scrape
fails (and no backups), `select_best_source` returns with that candidate's
status still `crawling` — an in-progress state — and nothing selected.  This
refutes the claim that on cascade exhaustion no candidate is left `crawling`:
the last tried candidate always is. -/
theorem cascade_exhaustion_counterexample :
    ((findDoc (select_best_source c4scrape c4detect c4host 0 c4hq c4db).docs
        "https://a.com").map (fun d => d.status)) = some "crawling"
    ∧ (select_best_source c4scrape c4detect c4host 0 c4hq c4db).selected_source = none := by
  exact ⟨by decide, by decide⟩

/-- **C4 (amended).** If every candidate's scrape fails in
`select_best_source`, the overall result is failure (`selected_source`
unchanged, nothing selected) and candidates outside the high-quality list are
untouched; every tried candidate — the high-quality list in descending score
order — ends `failed` **except the last tried one, which is left in the
in-progress `crawling` state** (the code never marks the final failure). -/
theorem cascade_exhaustion_amended (scrape : String → ScrapeResult)
    (detect : String → SchemaResult) (hostname : String → Option String) (now : Nat)
    (hq : List HQSource) (db : ProjDB)
    (hfail : ∀ u, (scrape u).success = false)
    (hne : hq ≠ [])
    (hnd : (hq.map (fun s => s.url)).Nodup) :
    (select_best_source scrape detect hostname now hq db).selected_source
        = db.selected_source
    ∧ (∀ v, v ∉ hq.map (fun s => s.url) →
        findDoc (select_best_source scrape detect hostname now hq db).docs v
          = findDoc db.docs v)
    ∧ ∀ i (h : i < (sortByScoreDesc hq).length),
        findDoc (select_best_source scrape detect hostname now hq db).docs
            (((sortByScoreDesc hq).get ⟨i, h⟩).url)
          = (findDoc db.docs (((sortByScoreDesc hq).get ⟨i, h⟩).url)).map
              (setStatus (if i = (sortByScoreDesc hq).length - 1 then "crawling"
                else "failed")) := by
  have hperm : (sortByScoreDesc hq).Perm hq := List.perm_insertionSort _ hq
  have hnemp : hq.isEmpty = false := by
    cases hq with
    | nil => exact absurd rfl hne
    | cons a l => rfl
  rcases hs : sortByScoreDesc hq with _ | ⟨best, backups⟩
  · rw [hs] at hperm
    exact absurd hperm.symm.eq_nil hne
  · rw [hs] at hperm
    have hndS : ((best :: backups).map (fun s => s.url)).Nodup := by
      have hp2 := (hperm.map (fun s => s.url)).nodup_iff
      exact hp2.mpr hnd
    have hbn : best.url ∉ backups.map (fun s => s.url)
        ∧ (backups.map (fun s => s.url)).Nodup := by
      rw [List.map_cons, List.nodup_cons] at hndS
      exact hndS
    obtain ⟨mb_sel, mb_fd⟩ := markBackups_spec backups db
    obtain ⟨cc1, cc2, cc3, cc4, cc5, cc6⟩ :=
      cascade_all_fail scrape hfail backups best.url (scrape best.url)
        { markBackups db backups with
          docs := updateDoc (markBackups db backups).docs best.url (setStatus "crawling") }
        (hfail best.url) hbn.1 hbn.2
    have hst : select_best_source scrape detect hostname now hq db
        = (cascade scrape best.url (scrape best.url) backups
            { markBackups db backups with
              docs := updateDoc (markBackups db backups).docs best.url
                (setStatus "crawling") }).2.2 := by
      simp only [select_best_source, hnemp, Bool.false_eq_true, if_false]
      rw [hs]
      simp only [hfail best.url, Bool.false_eq_true, if_false]
      rcases hC : cascade scrape best.url (scrape best.url) backups
          { markBackups db backups with
            docs := updateDoc (markBackups db backups).docs best.url
              (setStatus "crawling") } with ⟨u, r, dbC⟩
      have hr : r.success = false := by
        have := cc1
        rw [hC] at this
        exact this
      simp [hr]
    -- findDoc through the pre-cascade store
    have hB : ∀ v, findDoc ({ markBackups db backups with
        docs := updateDoc (markBackups db backups).docs best.url
          (setStatus "crawling") } : ProjDB).docs v =
        if v = best.url then (findDoc (markBackups db backups).docs best.url).map
          (setStatus "crawling")
        else findDoc (markBackups db backups).docs v := by
      intro v
      exact findDoc_updateDoc (setStatus "crawling") (fun d => rfl) best.url v _
    refine ⟨?_, ?_, ?_⟩
    · rw [hst, cc2]
      exact mb_sel
    · intro v hv
      have hvS : v ∉ (best :: backups).map (fun s => s.url) := by
        intro hc
        exact hv ((hperm.map (fun s => s.url)).mem_iff.mp hc)
      have hvb : v ≠ best.url := by
        intro h; exact hvS (by simp [h])
      have hvr : v ∉ backups.map (fun s => s.url) := by
        intro h; exact hvS (by simp [h])
      rw [hst, cc3 v hvb hvr, hB v, if_neg hvb, mb_fd v, if_neg hvr]
    · intro i h
      match i with
      | 0 =>
          have hget : ((best :: backups).get ⟨0, h⟩) = best := rfl
          simp only [hget]
          by_cases hrest : backups = []
          · have hdc := cc4 hrest
            rw [hst, hdc, hB best.url, if_pos rfl, mb_fd best.url, if_neg hbn.1]
            have hc0 : (0 : Nat) = (best :: backups).length - 1 := by
              rw [hrest]; rfl
            rw [if_pos hc0]
          · have hdc := cc5 hrest
            rw [hst, hdc, hB best.url, if_pos rfl, mb_fd best.url, if_neg hbn.1,
              map_setStatus_setStatus]
            have hc0 : ¬ ((0 : Nat) = (best :: backups).length - 1) := by
              have : backups.length ≠ 0 := fun hc => hrest (List.length_eq_zero.mp hc)
              simp only [List.length_cons]
              omega
            rw [if_neg hc0]
      | Nat.succ j =>
          have hj : j < backups.length := Nat.lt_of_succ_lt_succ h
          have hget : ((best :: backups).get ⟨j + 1, h⟩) = backups.get ⟨j, hj⟩ := rfl
          simp only [hget]
          have hvmem : (backups.get ⟨j, hj⟩).url ∈ backups.map (fun s => s.url) :=
            List.mem_map.mpr ⟨backups.get ⟨j, hj⟩, List.get_mem backups j hj, rfl⟩
          have hvb : (backups.get ⟨j, hj⟩).url ≠ best.url := by
            intro hc; rw [hc] at hvmem; exact hbn.1 hvmem
          have hcv := cc6 j hj
          rw [hst, hcv, hB _, if_neg hvb, mb_fd _, if_pos hvmem, map_setStatus_setStatus]
          have hcond : (j = backups.length - 1) ↔ (j + 1 = (best :: backups).length - 1) := by
            simp only [List.length_cons]
            omega
          by_cases hlast : j = backups.length - 1
          · rw [if_pos hlast, if_pos (hcond.mp hlast)]
          · rw [if_neg hlast, if_neg (fun hc => hlast (hcond.mpr hc))]

def c4hq2 : List HQSource :=
  [⟨"https://a.com", 80, "Dataset"⟩, ⟨"https://b.com", 75, "API"⟩]

def c4db2 : ProjDB :=
  { docs := [{ url := "https://a.com", status := "validated" },
             { url := "https://b.com", status := "validated" }] }

/-- Concrete run of the amended C4 theorem: two high-quality candidates, both
scrapes fail. -/
theorem cascade_exhaustion_amended_witness :
    ((∀ u, (c4scrape u).success = false) ∧ c4hq2 ≠ []
      ∧ (c4hq2.map (fun s => s.url)).Nodup)
    ∧ ((select_best_source c4scrape c4detect c4host 0 c4hq2 c4db2).selected_source
          = c4db2.selected_source
      ∧ (∀ v, v ∉ c4hq2.map (fun s => s.url) →
          findDoc (select_best_source c4scrape c4detect c4host 0 c4hq2 c4db2).docs v
            = findDoc c4db2.docs v)
      ∧ ∀ i (h : i < (sortByScoreDesc c4hq2).length),
          findDoc (select_best_source c4scrape c4detect c4host 0 c4hq2 c4db2).docs
              (((sortByScoreDesc c4hq2).get ⟨i, h⟩).url)
            = (findDoc c4db2.docs (((sortByScoreDesc c4hq2).get ⟨i, h⟩).url)).map
                (setStatus (if i = (sortByScoreDesc c4hq2).length - 1 then "crawling"
                  else "failed"))) :=
  ⟨⟨fun _ => rfl, by decide, by decide⟩,
   cascade_exhaustion_amended c4scrape c4detect c4host 0 c4hq2 c4db2
     (fun _ => rfl) (by decide) (by decide)⟩

/-! ## Training orchestrator — `Trainer.train` (trainer.py 55-148)

Collaborators: the Modal compute job `_run_modal_training` as
`run : String → Nat → ModalResult` (dataset ref and attempt number — the same
submission can fail transiently on one attempt and differently on the next),
the artifact fetch `_download_model` as `download : String → Option String`
(model filename to local path), and `torch.load` of the checkpoint as
`ckpt : String → Ckpt`. -/

/-- The fields of `_run_modal_training`'s result that the orchestrator
branches on: the success flag and the parsed error text. -/
structure ModalResult where
  success : Bool
  error : Option String := none
deriving Repr, DecidableEq

/-- The checkpoint fields read after a successful download (trainer.py
113-117). -/
structure Ckpt where
  accuracy : Int
  class_names : List String
  num_classes : Nat
deriving Repr, DecidableEq

/-- `TrainingResult` (trainer.py 26-37), minus the timing field. -/
structure TrainingResultL where
  success : Bool
  model_filename : String
  model_path : Option String
  architecture : String
  accuracy : Int
  class_names : List String
  num_classes : Nat
  error : Option String := none
deriving Repr, DecidableEq

/-- Python `str(x)` on an optional string (`str(None) = "None"`). -/
def strOfOpt : Option String → String
  | none => "None"
  | some s => s

/-- The structural-error classification (trainer.py 130):
`"No class folders" in str(error) or "dataset structure" in str(error).lower()`. -/
def structuralError (e : Option String) : Bool :=
  containsSubstr (strOfOpt e) "No class folders"
    || containsSubstr (pyLower (strOfOpt e)) "dataset structure"

/-- Outcome of the per-candidate retry loop: a successful attempt, or advance
to the next dataset carrying the last observed error. -/
inductive InnerOut where
  | success : InnerOut
  | advance : Option String → InnerOut
deriving Repr, DecidableEq

/-- The inner retry loop of `Trainer.train` (trainer.py 93-136) over the given
attempt numbers, returning the log of `(dataset, attempt)` submissions and the
outcome.  A structural error abandons the remaining attempts immediately. -/
def attemptLoop (run : String → Nat → ModalResult) (ds : String) :
    Option String → List Nat → List (String × Nat) × InnerOut
  | lastErr, [] => ([], .advance lastErr)
  | _, a :: rest =>
      let r := run ds a
      if r.success then ([(ds, a)], .success)
      else if structuralError r.error then ([(ds, a)], .advance r.error)
      else
        let next := attemptLoop run ds r.error rest
        ((ds, a) :: next.1, next.2)

/-- The overall-failure result (trainer.py 138-148). -/
def failResult (mf arch : String) (n : Nat) (lastErr : Option String) : TrainingResultL :=
  { success := false, model_filename := mf, model_path := none, architecture := arch,
    accuracy := 0, class_names := [], num_classes := 0,
    error := some ("Training failed on all " ++ toString n
      ++ " datasets. Last error: " ++ strOfOpt lastErr) }

/-- The successful-attempt tail (trainer.py 106-124): download the artifact;
when the download yields a path, load the checkpoint and fill in model path,
accuracy and classes; either way return the (successful) result immediately. -/
def successResult (download : String → Option String) (ckpt : String → Ckpt)
    (mf arch : String) : TrainingResultL :=
  let base : TrainingResultL :=
    { success := true
      model_filename := mf
      model_path := none
      architecture := arch
      accuracy := 0
      class_names := []
      num_classes := 0 }
  match download mf with
  | some p =>
      { base with
        model_path := some p
        accuracy := (ckpt p).accuracy
        class_names := (ckpt p).class_names
        num_classes := (ckpt p).num_classes }
  | none => base

/-- The dataset cascade of `Trainer.train` (trainer.py 90-148): for each
dataset in order run the retry loop (`range(1, max_retries + 1)`); on success
return immediately, otherwise advance with the updated `last_error`; when all
datasets are exhausted return the overall-failure result. -/
def trainLoop (run : String → Nat → ModalResult) (download : String → Option String)
    (ckpt : String → Ckpt) (maxR : Nat) (mf arch : String) (n : Nat) :
    Option String → List String → TrainingResultL × List (String × Nat)
  | lastErr, [] => (failResult mf arch n lastErr, [])
  | lastErr, ds :: rest =>
      match attemptLoop run ds lastErr (List.range' 1 maxR) with
      | (log, .success) => (successResult download ckpt mf arch, log)
      | (log, .advance le) =>
          let next := trainLoop run download ckpt maxR mf arch n le rest
          (next.1, log ++ next.2)

/-- `Trainer.__init__(max_retries=2)` (trainer.py 51). -/
def trainerDefaultMaxRetries : Nat := 2

/-- `Trainer.train` (trainer.py 55-148): the datasets to try are the primary
followed by the fallbacks that do not duplicate the primary. -/
def train (run : String → Nat → ModalResult) (download : String → Option String)
    (ckpt : String → Ckpt) (maxR : Nat) (task_name arch : String)
    (dataset : String) (fallback_datasets : List String) :
    TrainingResultL × List (String × Nat) :=
  let datasets_to_try := dataset :: fallback_datasets.filter (fun fb => fb ≠ dataset)
  let model_filename := task_name ++ "_" ++ arch ++ ".pth"
  trainLoop run download ckpt maxR model_filename arch datasets_to_try.length
    none datasets_to_try

/-- **C6.** In `Trainer.train`, a structural training error (error text
containing `No class folders`, or `dataset structure` case-insensitively) on a
dataset's first attempt produces exactly one attempt for that dataset — the
log contributes only `(ds, 1)`, not `maxRetries` entries — after which the
orchestrator advances to the next candidate with `last_error` updated. -/
theorem structural_error_single_attempt (run : String → Nat → ModalResult)
    (download : String → Option String) (ckpt : String → Ckpt) (maxR : Nat)
    (mf arch : String) (n : Nat) (lastErr : Option String) (ds : String)
    (rest : List String)
    (hmax : 1 ≤ maxR)
    (hfail : (run ds 1).success = false)
    (hstruct : structuralError (run ds 1).error = true) :
    trainLoop run download ckpt maxR mf arch n lastErr (ds :: rest)
      = ((trainLoop run download ckpt maxR mf arch n ((run ds 1).error) rest).1,
         (ds, 1) :: (trainLoop run download ckpt maxR mf arch n ((run ds 1).error) rest).2) := by
  obtain ⟨m, rfl⟩ : ∃ m, maxR = m + 1 := ⟨maxR - 1, by omega⟩
  have hrange : List.range' 1 (m + 1) = 1 :: List.range' 2 m := List.range'_succ 1 m 1
  simp [trainLoop, hrange, attemptLoop, hfail, hstruct]

def c6run : String → Nat → ModalResult := fun ds _ =>
  if ds == "ds1" then { success := false, error := some "No class folders found in dataset" }
  else { success := true }

/-- Concrete run of the C6 theorem: `ds1` fails structurally on attempt 1. -/
theorem structural_error_single_attempt_witness :
    (1 ≤ 2 ∧ (c6run "ds1" 1).success = false
      ∧ structuralError (c6run "ds1" 1).error = true)
    ∧ trainLoop c6run (fun _ => some "/m.pth") (fun _ => ⟨90, ["a"], 1⟩) 2 "t_r.pth" "r" 2
        none ("ds1" :: ["ds2"])
      = ((trainLoop c6run (fun _ => some "/m.pth") (fun _ => ⟨90, ["a"], 1⟩) 2 "t_r.pth" "r" 2
            ((c6run "ds1" 1).error) ["ds2"]).1,
         ("ds1", 1) :: (trainLoop c6run (fun _ => some "/m.pth") (fun _ => ⟨90, ["a"], 1⟩) 2
            "t_r.pth" "r" 2 ((c6run "ds1" 1).error) ["ds2"]).2) :=
  ⟨⟨by decide, by decide, by decide⟩,
   structural_error_single_attempt c6run (fun _ => some "/m.pth") (fun _ => ⟨90, ["a"], 1⟩)
     2 "t_r.pth" "r" 2 none "ds1" ["ds2"] (by decide) (by decide) (by decide)⟩

theorem attemptLoop_allFail (run : String → Nat → ModalResult) (ds : String) :
    ∀ (as : List Nat) (lastErr : Option String),
      (∀ a ∈ as, (run ds a).success = false ∧ structuralError (run ds a).error = false) →
      attemptLoop run ds lastErr as
        = (as.map (fun a => (ds, a)),
           .advance (as.foldl (fun _ a => (run ds a).error) lastErr)) := by
  intro as
  induction as with
  | nil => intro lastErr _; rfl
  | cons a rest ih =>
      intro lastErr hall
      have ha := hall a (List.mem_cons_self a rest)
      have hrest : ∀ b ∈ rest, (run ds b).success = false
          ∧ structuralError (run ds b).error = false :=
        fun b hb => hall b (List.mem_cons_of_mem a hb)
      simp [attemptLoop, ha.1, ha.2, ih ((run ds a).error) hrest]

theorem foldl_overwrite (g : String → Option String) :
    ∀ (l : List String) (init : Option String) (hne : l ≠ []),
      List.foldl (fun _ ds => g ds) init l = g (l.getLast hne) := by
  intro l
  induction l with
  | nil => intro init hne; exact absurd rfl hne
  | cons a rest ih =>
      intro init hne
      by_cases hrest : rest = []
      · subst hrest; rfl
      · have h1 : List.foldl (fun _ ds => g ds) init (a :: rest)
            = List.foldl (fun _ ds => g ds) (g a) rest := rfl
        rw [h1, ih (g a) hrest, List.getLast_cons hrest]

theorem range'_split_last (maxR : Nat) (hmax : 1 ≤ maxR) :
    List.range' 1 maxR = List.range' 1 (maxR - 1) ++ [maxR] := by
  have h1 : List.range' 1 (maxR - 1) ++ List.range' (1 + 1 * (maxR - 1)) 1 1
      = List.range' 1 (1 + (maxR - 1)) := List.range'_append 1 (maxR - 1) 1 1
  have h2 : 1 + 1 * (maxR - 1) = maxR := by omega
  have h3 : 1 + (maxR - 1) = maxR := by omega
  rw [h2, h3] at h1
  rw [← h1]
  rfl

theorem nat_foldl_last (run : String → Nat → ModalResult) (ds : String) (maxR : Nat)
    (hmax : 1 ≤ maxR) (init : Option String) :
    (List.range' 1 maxR).foldl (fun _ a => (run ds a).error) init = (run ds maxR).error := by
  rw [range'_split_last maxR hmax, List.foldl_append]
  rfl

theorem trainLoop_allFail (run : String → Nat → ModalResult)
    (download : String → Option String) (ckpt : String → Ckpt) (maxR : Nat)
    (mf arch : String) (n : Nat) (hmax : 1 ≤ maxR) :
    ∀ (l : List String) (lastErr : Option String),
      (∀ ds ∈ l, ∀ a, 1 ≤ a → a ≤ maxR →
        (run ds a).success = false ∧ structuralError (run ds a).error = false) →
      (trainLoop run download ckpt maxR mf arch n lastErr l).1
        = failResult mf arch n
            (l.foldl (fun _ ds => (run ds maxR).error) lastErr) := by
  intro l
  induction l with
  | nil => intro lastErr _; rfl
  | cons ds rest ih =>
      intro lastErr hall
      have hds : ∀ a ∈ List.range' 1 maxR,
          (run ds a).success = false ∧ structuralError (run ds a).error = false := by
        intro a ha
        have := List.mem_range'_1.mp ha
        exact hall ds (List.mem_cons_self ds rest) a this.1 (by omega)
      have hrest : ∀ d ∈ rest, ∀ a, 1 ≤ a → a ≤ maxR →
          (run d a).success = false ∧ structuralError (run d a).error = false :=
        fun d hd => hall d (List.mem_cons_of_mem ds hd)
      have hatt := attemptLoop_allFail run ds (List.range' 1 maxR) lastErr hds
      have hlast := nat_foldl_last run ds maxR hmax lastErr
      rw [hlast] at hatt
      simp only [trainLoop, hatt]
      exact ih ((run ds maxR).error) hrest

/-- **C7.** In `Trainer.train` with retry bound `maxRetries` (default 2):
(i) a dataset all of whose attempts fail with transient (non-structural)
errors receives exactly `maxRetries` attempts — the log contributes
`(ds, 1) … (ds, maxRetries)` — before the orchestrator advances with
`last_error` set to the final attempt's error; (ii) when every dataset in the
cascade fails that way, `Trainer.train` returns `success = False` with an
error message recording the dataset count and the last observed error (that
of the last attempt on the last dataset). -/
theorem transient_retry_bound_and_exhaustion :
    (∀ (run : String → Nat → ModalResult) (download : String → Option String)
        (ckpt : String → Ckpt) (maxR : Nat) (mf arch : String) (n : Nat)
        (lastErr : Option String) (ds : String) (rest : List String),
      1 ≤ maxR →
      (∀ a, 1 ≤ a → a ≤ maxR →
        (run ds a).success = false ∧ structuralError (run ds a).error = false) →
      trainLoop run download ckpt maxR mf arch n lastErr (ds :: rest)
        = ((trainLoop run download ckpt maxR mf arch n ((run ds maxR).error) rest).1,
           ((List.range' 1 maxR).map (fun a => (ds, a)))
             ++ (trainLoop run download ckpt maxR mf arch n ((run ds maxR).error) rest).2))
    ∧ trainerDefaultMaxRetries = 2
    ∧ ∀ (run : String → Nat → ModalResult) (download : String → Option String)
        (ckpt : String → Ckpt) (maxR : Nat) (task_name arch dataset : String)
        (fallback_datasets : List String),
      1 ≤ maxR →
      (∀ ds ∈ dataset :: fallback_datasets.filter (fun fb => fb ≠ dataset),
        ∀ a, 1 ≤ a → a ≤ maxR →
        (run ds a).success = false ∧ structuralError (run ds a).error = false) →
      (train run download ckpt maxR task_name arch dataset fallback_datasets).1.success
          = false
      ∧ (train run download ckpt maxR task_name arch dataset fallback_datasets).1.error
          = some ("Training failed on all "
              ++ toString (dataset :: fallback_datasets.filter (fun fb => fb ≠ dataset)).length
              ++ " datasets. Last error: "
              ++ strOfOpt ((run ((dataset :: fallback_datasets.filter
                    (fun fb => fb ≠ dataset)).getLast (List.cons_ne_nil _ _)) maxR).error)) := by
  refine ⟨?_, rfl, ?_⟩
  · intro run download ckpt maxR mf arch n lastErr ds rest hmax hall
    have hds : ∀ a ∈ List.range' 1 maxR,
        (run ds a).success = false ∧ structuralError (run ds a).error = false := by
      intro a ha
      have := List.mem_range'_1.mp ha
      exact hall a this.1 (by omega)
    have hatt := attemptLoop_allFail run ds (List.range' 1 maxR) lastErr hds
    have hlast := nat_foldl_last run ds maxR hmax lastErr
    rw [hlast] at hatt
    simp [trainLoop, hatt]
  · intro run download ckpt maxR task_name arch dataset fallback_datasets hmax hall
    have hfold := trainLoop_allFail run download ckpt maxR
      (task_name ++ "_" ++ arch ++ ".pth") arch
      (dataset :: fallback_datasets.filter (fun fb => fb ≠ dataset)).length hmax
      (dataset :: fallback_datasets.filter (fun fb => fb ≠ dataset)) none hall
    have hlastfold := foldl_overwrite (fun ds => (run ds maxR).error)
      (dataset :: fallback_datasets.filter (fun fb => fb ≠ dataset)) none
      (List.cons_ne_nil _ _)
    constructor
    · show (trainLoop run download ckpt maxR _ arch _ none _).1.success = false
      rw [hfold]
      rfl
    · show (trainLoop run download ckpt maxR _ arch _ none _).1.error = _
      rw [hfold, hlastfold]
      rfl

def c7run : String → Nat → ModalResult := fun _ _ =>
  { success := false, error := some "Training timeout" }

/-- Concrete run of the C7 theorem: every attempt on `ds1` and `ds2` fails
with a transient error; each dataset gets exactly 2 attempts and the final
result records the last error. -/
theorem transient_retry_bound_and_exhaustion_witness :
    ((1 : Nat) ≤ 2
      ∧ (∀ ds ∈ "ds1" :: (["ds2"].filter (fun fb => fb ≠ "ds1")), ∀ a, 1 ≤ a → a ≤ 2 →
          (c7run ds a).success = false ∧ structuralError (c7run ds a).error = false))
    ∧ ((train c7run (fun _ => none) (fun _ => ⟨0, [], 0⟩) 2 "t" "r" "ds1" ["ds2"]).1.success
          = false
      ∧ (train c7run (fun _ => none) (fun _ => ⟨0, [], 0⟩) 2 "t" "r" "ds1" ["ds2"]).1.error
          = some ("Training failed on all "
              ++ toString ("ds1" :: (["ds2"].filter (fun fb => fb ≠ "ds1"))).length
              ++ " datasets. Last error: "
              ++ strOfOpt ((c7run (("ds1" :: (["ds2"].filter (fun fb => fb ≠ "ds1"))).getLast
                    (List.cons_ne_nil _ _)) 2).error))) :=
  ⟨⟨by decide, by
      intro ds _ a h1 h2
      exact ⟨rfl, (by decide : structuralError (some "Training timeout") = false)⟩⟩,
   transient_retry_bound_and_exhaustion.2.2 c7run (fun _ => none) (fun _ => ⟨0, [], 0⟩)
     2 "t" "r" "ds1" ["ds2"] (by decide)
     (by
       intro ds _ a h1 h2
       exact ⟨rfl, (by decide : structuralError (some "Training timeout") = false)⟩)⟩

theorem attemptLoop_firstSuccess (run : String → Nat → ModalResult) (ds : String)
    (k : Nat) (hk : (run ds k).success = true) :
    ∀ (pre : List Nat) (post : List Nat) (lastErr : Option String),
      (∀ a ∈ pre, (run ds a).success = false ∧ structuralError (run ds a).error = false) →
      attemptLoop run ds lastErr (pre ++ k :: post)
        = (pre.map (fun a => (ds, a)) ++ [(ds, k)], .success) := by
  intro pre
  induction pre with
  | nil => intro post lastErr _; simp [attemptLoop, hk]
  | cons a rest ih =>
      intro post lastErr hall
      have ha := hall a (List.mem_cons_self a rest)
      have hrest : ∀ b ∈ rest, (run ds b).success = false
          ∧ structuralError (run ds b).error = false :=
        fun b hb => hall b (List.mem_cons_of_mem a hb)
      simp [attemptLoop, ha.1, ha.2, ih post ((run ds a).error) hrest]

theorem range'_split_at (maxR k : Nat) (h1 : 1 ≤ k) (h2 : k ≤ maxR) :
    List.range' 1 maxR = List.range' 1 (k - 1) ++ k :: List.range' (k + 1) (maxR - k) := by
  have ha : List.range' 1 (k - 1) ++ List.range' (1 + 1 * (k - 1)) (maxR - (k - 1)) 1
      = List.range' 1 ((maxR - (k - 1)) + (k - 1)) := List.range'_append 1 (k - 1) _ 1
  have hb : 1 + 1 * (k - 1) = k := by omega
  have hc : (maxR - (k - 1)) + (k - 1) = maxR := by omega
  rw [hb, hc] at ha
  rw [← ha]
  congr 1
  have hd : maxR - (k - 1) = (maxR - k) + 1 := by omega
  rw [hd, List.range'_succ]

/-- **C8.** In `Trainer.train`, as soon as attempt `k` on a dataset succeeds
(after `k - 1` transient failures, `k ≤ maxRetries`), the orchestrator
returns immediately: the attempt log is exactly `(ds, 1) … (ds, k)` — no
further attempts on that dataset and none on any later dataset — and when the
artifact download yields a path the returned result is successful and carries
it (with the checkpoint's accuracy and classes). -/
theorem train_success_returns_immediately (run : String → Nat → ModalResult)
    (download : String → Option String) (ckpt : String → Ckpt) (maxR : Nat)
    (mf arch : String) (n : Nat) (lastErr : Option String) (ds : String)
    (rest : List String) (k : Nat) (p : String)
    (h1 : 1 ≤ k) (h2 : k ≤ maxR)
    (h3 : ∀ a, 1 ≤ a → a < k →
      (run ds a).success = false ∧ structuralError (run ds a).error = false)
    (h4 : (run ds k).success = true)
    (h5 : download mf = some p) :
    trainLoop run download ckpt maxR mf arch n lastErr (ds :: rest)
      = ({ success := true, model_filename := mf, model_path := some p,
           architecture := arch, accuracy := (ckpt p).accuracy,
           class_names := (ckpt p).class_names, num_classes := (ckpt p).num_classes,
           error := none },
         (List.range' 1 k).map (fun a => (ds, a))) := by
  have hpre : ∀ a ∈ List.range' 1 (k - 1),
      (run ds a).success = false ∧ structuralError (run ds a).error = false := by
    intro a ha
    have := List.mem_range'_1.mp ha
    exact h3 a this.1 (by omega)
  have hatt := attemptLoop_firstSuccess run ds k h4 (List.range' 1 (k - 1))
    (List.range' (k + 1) (maxR - k)) lastErr hpre
  have hsplit := range'_split_at maxR k h1 h2
  have hmaps : (List.range' 1 (k - 1)).map (fun a => (ds, a)) ++ [(ds, k)]
      = (List.range' 1 k).map (fun a => (ds, a)) := by
    have : List.range' 1 (k - 1) ++ [k] = List.range' 1 k := by
      have := range'_split_last k h1
      rw [this]
    rw [← this, List.map_append]
    rfl
  simp only [trainLoop, hsplit, hatt, hmaps]
  simp [successResult, h5]

def c8run : String → Nat → ModalResult := fun _ a =>
  if a == 1 then { success := false, error := some "Training timeout" }
  else { success := true }

/-- Concrete run of the C8 theorem: attempt 1 fails transiently, attempt 2
succeeds, the artifact downloads to `/models/t_r.pth`. -/
theorem train_success_returns_immediately_witness :
    ((1 : Nat) ≤ 2 ∧ (2 : Nat) ≤ 2
      ∧ (∀ a, 1 ≤ a → a < 2 →
          (c8run "ds1" a).success = false ∧ structuralError (c8run "ds1" a).error = false)
      ∧ (c8run "ds1" 2).success = true
      ∧ (fun _ : String => some "/models/t_r.pth") "t_r.pth" = some "/models/t_r.pth")
    ∧ trainLoop c8run (fun _ => some "/models/t_r.pth") (fun _ => ⟨91, ["x", "y"], 2⟩) 2
        "t_r.pth" "r" 1 none ("ds1" :: [])
      = ({ success := true, model_filename := "t_r.pth",
           model_path := some "/models/t_r.pth", architecture := "r", accuracy := 91,
           class_names := ["x", "y"], num_classes := 2, error := none },
         (List.range' 1 2).map (fun a => ("ds1", a))) :=
  ⟨⟨by decide, by decide,
    by
      intro a ha1 ha2
      have : a = 1 := by omega
      subst this
      exact ⟨by decide, by decide⟩,
    by decide, rfl⟩,
   train_success_returns_immediately c8run (fun _ => some "/models/t_r.pth")
     (fun _ => ⟨91, ["x", "y"], 2⟩) 2 "t_r.pth" "r" 1 none "ds1" [] 2 "/models/t_r.pth"
     (by decide) (by decide)
     (by
       intro a ha1 ha2
       have : a = 1 := by omega
       subst this
       exact ⟨by decide, by decide⟩)
     (by decide) rfl⟩

/-! ## The whole discovery pipeline — `run_discovery_pipeline`
(discovery.py 24-44)

`parse_intent` writes the discovery chain then returns the parsed intent; its
LLM call is the oracle `intent` (raising = `.error`).  Provider results enter
as the already-shaped lists `fc`/`kg` (provider exceptions are swallowed into
empty lists by `discovery_crawl`, discovery.py 139-149).  The `try/except` in
`run_discovery_pipeline` re-raises, so an exception escapes to the caller
with whatever store mutations already happened. -/

/-- `ParsedIntent` (schemas.py / openrouter.py). -/
structure ParsedIntentL where
  target_variable : String
  feature_requirements : List String
  search_queries : List String
deriving Repr, DecidableEq

/-- `discovery_crawl` (discovery.py 114-175): merge and dedup the provider
outputs, then append the unique sources to the project (`$push`, only when
nonempty). -/
def discovery_crawl (parse : String → Option UrlParts) (fc kg : List SourceDoc)
    (db : ProjDB) : List SourceDoc × ProjDB :=
  let all_sources := mergeDedup (normalize_url parse) (fc ++ kg) []
  let db1 := if all_sources.isEmpty then db else { db with docs := db.docs ++ all_sources }
  (all_sources, db1)

/-- How a background pipeline run ends: normal completion, or an exception
propagating out of the background task (the project store keeps whatever was
already written). -/
inductive PipelineOutcome where
  | ok : ProjDB → PipelineOutcome
  | raised : ProjDB → PipelineOutcome
deriving Repr, DecidableEq

/-- `run_discovery_pipeline` (discovery.py 24-44): intent parse (writing the
discovery chain on success), crawl, scoring batch, source selection; any
raised exception is re-raised (`.raised`). -/
def run_discovery_pipeline (parse : String → Option UrlParts)
    (scorer : String → Except String (Int × String)) (now : Nat)
    (scrape : String → ScrapeResult) (detect : String → SchemaResult)
    (hostname : String → Option String) (intent : Except String ParsedIntentL)
    (fc kg : List SourceDoc) (prompt : String) (db : ProjDB) : PipelineOutcome :=
  match intent with
  | .error _ => .raised db
  | .ok pi =>
      let db1 := { db with discovery_chain := some ⟨prompt, pi.search_queries⟩ }
      let crawl := discovery_crawl parse fc kg db1
      match score_relevance_batch parse scorer now crawl.1 crawl.2 [] with
      | .error db3 => .raised db3
      | .ok (db3, hq) => .ok (select_best_source scrape detect hostname now hq db3)

/-- **C9 (counterexample).** When intent parsing succeeds but both providers
return zero candidates, the pipeline does *not* abort and surfaces no error
into the project record: it completes normally, having written only the
discovery chain — no source selected, no error field anywhere in the record.
This refutes the claim that zero discovered candidates aborts the run with an
explicit error in the Project state. -/
theorem pipeline_fatal_counterexample :
    run_discovery_pipeline (fun _ => none)
        (fun _ => (.ok (80, "Dataset") : Except String (Int × String))) 0
        c4scrape c4detect c4host (.ok ⟨"cat breed", [], ["q1"]⟩) [] [] "find cat data" {}
      = .ok { discovery_chain := some ⟨"find cat data", ["q1"]⟩ }
    ∧ ({ discovery_chain := some ⟨"find cat data", ["q1"]⟩ } : ProjDB).selected_source
        = none := by
  exact ⟨rfl, rfl⟩

/-- **C9 (amended).** An intent-parsing failure does abort the whole run —
the exception propagates to the caller — but no error is surfaced into the
project record (it is left exactly as it was).  Zero candidates discovered by
all providers does not abort at all: the pipeline completes normally having
written only the discovery chain, with no selected source and no error
recorded. -/
theorem pipeline_fatal_amended :
    (∀ (parse : String → Option UrlParts) (scorer : String → Except String (Int × String))
        (now : Nat) (scrape : String → ScrapeResult) (detect : String → SchemaResult)
        (hostname : String → Option String) (e : String) (fc kg : List SourceDoc)
        (prompt : String) (db : ProjDB),
      run_discovery_pipeline parse scorer now scrape detect hostname (.error e)
          fc kg prompt db = .raised db)
    ∧ ∀ (parse : String → Option UrlParts) (scorer : String → Except String (Int × String))
        (now : Nat) (scrape : String → ScrapeResult) (detect : String → SchemaResult)
        (hostname : String → Option String) (pi : ParsedIntentL) (prompt : String)
        (db : ProjDB),
      run_discovery_pipeline parse scorer now scrape detect hostname (.ok pi)
          [] [] prompt db
        = .ok { db with discovery_chain := some ⟨prompt, pi.search_queries⟩ } := by
  constructor
  · intro parse scorer now scrape detect hostname e fc kg prompt db
    rfl
  · intro parse scorer now scrape detect hostname pi prompt db
    rfl

/-! ## CLI dataset discovery fallbacks — `DatasetDiscovery` (dataset/discovery.py) -/

/-- `FALLBACK_DATASETS` (dataset/discovery.py 52-87), keyword → dataset refs,
in source (dict insertion) order.  `default` is itself a keyword entry. -/
def FALLBACK_DATASETS : List (String × List String) :=
  [("bird", ["gpiosenka/100-bird-species",
             "umairshahpirzada/birds-20-species-image-classification",
             "wenewone/cub2002011"]),
   ("cat", ["tongpython/cat-and-dog", "shaunthesheep/microsoft-catsvsdogs-dataset"]),
   ("dog", ["tongpython/cat-and-dog", "jessicali9530/stanford-dogs-dataset"]),
   ("flower", ["alxmamaev/flowers-recognition", "imsparsh/flowers-dataset"]),
   ("defect", ["kaustubhdikshit/neu-surface-defect-database",
               "fantacher/neu-metal-surface-defects-data"]),
   ("metal", ["kaustubhdikshit/neu-surface-defect-database",
              "fantacher/neu-metal-surface-defects-data"]),
   ("fruit", ["moltean/fruits"]),
   ("food", ["kmader/food41"]),
   ("default", ["kaustubhdikshit/neu-surface-defect-database"])]

/-- `DatasetDiscovery._get_fallbacks` (dataset/discovery.py 228-241): collect
the datasets of every keyword contained in the lowercased task description;
if none matched, fall back to the `default` entry. -/
def getFallbacks (task_description : String) : List String :=
  let task_lower := pyLower task_description
  let results := FALLBACK_DATASETS.foldl
    (fun acc p => if containsSubstr task_lower p.1 then acc ++ p.2 else acc) []
  if results.isEmpty then results ++ ((FALLBACK_DATASETS.lookup "default").getD [])
  else results

/-- The ref-dedup of `discover_all` stage 3 (dataset/discovery.py 151-157). -/
def dedupRefs : List String → List String → List String
  | [], _ => []
  | c :: rest, seen =>
      if c ∈ seen then dedupRefs rest seen else c :: dedupRefs rest (c :: seen)

/-- `DatasetDiscovery.discover_all` (dataset/discovery.py 125-174): MongoDB
results plus keyword fallbacks, deduplicated by ref, the first
`max_candidates` of which are validated; the validated ones are returned.
The Mongo search and the Kaggle validation are oracles. -/
def discover_all (mongo_results : List String) (validate : String → Bool)
    (task_description : String) (max_candidates : Nat) : List String :=
  let candidates := mongo_results ++ getFallbacks task_description
  let unique_candidates := dedupRefs candidates []
  (unique_candidates.take max_candidates).filter validate

theorem getFallbacks_foldl (task_lower : String) :
    ∀ (l : List (String × List String)) (acc : List String),
      l.foldl (fun acc p => if containsSubstr task_lower p.1 then acc ++ p.2 else acc) acc
        = acc ++ ((l.filter (fun p => containsSubstr task_lower p.1)).map Prod.snd).flatten := by
  intro l
  induction l with
  | nil => intro acc; simp
  | cons p rest ih =>
      intro acc
      by_cases hp : containsSubstr task_lower p.1
      · simp only [List.foldl_cons, hp, if_true, List.filter_cons, List.map_cons,
          List.flatten]
        rw [ih (acc ++ p.2)]
        simp [hp, List.append_assoc]
      · simp only [List.foldl_cons, hp, Bool.false_eq_true, if_false, List.filter_cons]
        rw [ih acc]

theorem dedupRefs_ne_nil (c : String) (rest : List String) :
    dedupRefs (c :: rest) [] ≠ [] := by
  simp [dedupRefs]

theorem take_ne_nil (mc : Nat) (hmc : 1 ≤ mc) :
    ∀ (l : List String), l ≠ [] → l.take mc ≠ [] := by
  intro l hl
  cases l with
  | nil => exact absurd rfl hl
  | cons a rest =>
      obtain ⟨m, rfl⟩ : ∃ m, mc = m + 1 := ⟨mc - 1, by omega⟩
      simp [List.take]

/-- **C10.** `_get_fallbacks` returns, for every task description, exactly the
concatenated datasets of the matching keywords — or the `default` entry when
no keyword matched — and this list is never empty.  Consequently
`discover_all` always has at least one unique candidate to validate (for any
Mongo results and any positive `max_candidates`), and an empty discovery
result can only mean every tried candidate failed validation. -/
theorem fallbacks_always_nonempty (task : String) (mongo : List String)
    (validate : String → Bool) (mc : Nat) (hmc : 1 ≤ mc) :
    getFallbacks task ≠ []
    ∧ getFallbacks task =
        (if (((FALLBACK_DATASETS.filter
              (fun p => containsSubstr (pyLower task) p.1)).map Prod.snd).flatten).isEmpty
         then (FALLBACK_DATASETS.lookup "default").getD []
         else ((FALLBACK_DATASETS.filter
              (fun p => containsSubstr (pyLower task) p.1)).map Prod.snd).flatten)
    ∧ (dedupRefs (mongo ++ getFallbacks task) []).take mc ≠ []
    ∧ (discover_all mongo validate task mc = [] →
        ∀ r ∈ (dedupRefs (mongo ++ getFallbacks task) []).take mc, validate r = false) := by
  have hchar : getFallbacks task =
      (if (((FALLBACK_DATASETS.filter
            (fun p => containsSubstr (pyLower task) p.1)).map Prod.snd).flatten).isEmpty
       then (FALLBACK_DATASETS.lookup "default").getD []
       else ((FALLBACK_DATASETS.filter
            (fun p => containsSubstr (pyLower task) p.1)).map Prod.snd).flatten) := by
    simp only [getFallbacks, getFallbacks_foldl (pyLower task) FALLBACK_DATASETS [],
      List.nil_append]
    by_cases hm : (((FALLBACK_DATASETS.filter
        (fun p => containsSubstr (pyLower task) p.1)).map Prod.snd).flatten).isEmpty
    · rw [if_pos hm, if_pos hm]
      have : ((FALLBACK_DATASETS.filter
          (fun p => containsSubstr (pyLower task) p.1)).map Prod.snd).flatten = [] :=
        List.isEmpty_iff.mp hm
      rw [this, List.nil_append]
    · rw [if_neg hm, if_neg hm]
  have hne : getFallbacks task ≠ [] := by
    rw [hchar]
    by_cases hm : (((FALLBACK_DATASETS.filter
        (fun p => containsSubstr (pyLower task) p.1)).map Prod.snd).flatten).isEmpty
    · rw [if_pos hm]
      decide
    · rw [if_neg hm]
      intro hc
      rw [hc] at hm
      exact hm rfl
  have hcand : mongo ++ getFallbacks task ≠ [] := by
    intro hc
    rcases List.append_eq_nil.mp hc with ⟨_, h2⟩
    exact hne h2
  have hded : dedupRefs (mongo ++ getFallbacks task) [] ≠ [] := by
    rcases hc : mongo ++ getFallbacks task with _ | ⟨c, rest⟩
    · exact absurd hc hcand
    · exact dedupRefs_ne_nil c rest
  refine ⟨hne, hchar, take_ne_nil mc hmc _ hded, ?_⟩
  intro hempty r hr
  have : ∀ a ∈ (dedupRefs (mongo ++ getFallbacks task) []).take mc, ¬ validate a = true := by
    rw [← List.filter_eq_nil_iff]
    exact hempty
  have hx := this r hr
  cases hv : validate r with
  | false => rfl
  | true => exact absurd hv hx

/-- Concrete run of the C10 theorem: a bird task with no Mongo results and a
validator that rejects everything — candidates exist, and the empty result is
due to validation only. -/
theorem fallbacks_always_nonempty_witness :
    (1 : Nat) ≤ 5
    ∧ (getFallbacks "classify bird species" ≠ []
      ∧ getFallbacks "classify bird species" =
          (if (((FALLBACK_DATASETS.filter
                (fun p => containsSubstr (pyLower "classify bird species") p.1)).map
                Prod.snd).flatten).isEmpty
           then (FALLBACK_DATASETS.lookup "default").getD []
           else ((FALLBACK_DATASETS.filter
                (fun p => containsSubstr (pyLower "classify bird species") p.1)).map
                Prod.snd).flatten)
      ∧ (dedupRefs ([] ++ getFallbacks "classify bird species") []).take 5 ≠ []
      ∧ (discover_all [] (fun _ => false) "classify bird species" 5 = [] →
          ∀ r ∈ (dedupRefs ([] ++ getFallbacks "classify bird species") []).take 5,
            (fun _ : String => false) r = false)) :=
  ⟨by decide,
   fallbacks_always_nonempty "classify bird species" [] (fun _ => false) 5 (by decide)⟩

end AutoML
